import Mathlib

/-!
# Verification of the interval point-cover solvers

Shallow embedding of the two solvers of this repository:
the exact branch-and-bound solver (`src/coberturaBacktracking.c`) and the
greedy heuristic (`src/coberturaGuloso.c`), together with proofs of the
specified properties.

Modelling conventions:
* C `int` values that hold positions and interval endpoints are modelled as
  `Int`; counters and sizes as `Nat`.  `INT_MAX` is the concrete sentinel
  `2147483647` used by the backtracking solver for "no cover found yet".
* A C array together with its length counter (`solucao_atual` with
  `n_solucao_atual`, `melhor_solucao` with `n_melhor_solucao`, `solucao` with
  `n_solucao`) is modelled as the `List` of its live prefix: the C code never
  reads a slot at or beyond the counter, so the list of the first `n` slots is
  an observationally exact representation.  `n_melhor_solucao` is kept as a
  separate field because it carries the `INT_MAX` sentinel independently of
  the stored list.
* The incrementally maintained counter `n_pontos_cobertos` of the greedy
  solver is recovered as `count true` of the coverage mask: the C code
  increments it exactly when a mask entry flips from 0 to 1, so the two agree.
* `double` metric fields (`qualidade`) are modelled in exact rational
  arithmetic `ℚ`; wall-clock time and `getrusage` memory are external
  measurements and are not part of the model.
-/

/-- An interval `[inicio, fim]` (C struct `Intervalo`, both files). -/
structure Intervalo where
  inicio : Int
  fim : Int
deriving DecidableEq, Repr

/-- A point with an id and a position (C struct `Ponto`, both files). -/
structure Ponto where
  id : Int
  posicao : Int
deriving DecidableEq, Repr

/-- `ponto_coberto_por_intervalo` of `coberturaGuloso.c`:
closed-interval membership test. -/
def ponto_coberto_por_intervalo (ponto : Ponto) (intervalo : Intervalo) : Bool :=
  intervalo.inicio ≤ ponto.posicao && ponto.posicao ≤ intervalo.fim

/-- `ponto_coberto_por_intervalo_backtracking` of `coberturaBacktracking.c`:
textually the same test as the greedy file's copy. -/
def ponto_coberto_por_intervalo_backtracking (ponto : Ponto) (intervalo : Intervalo) : Bool :=
  intervalo.inicio ≤ ponto.posicao && ponto.posicao ≤ intervalo.fim

/-- Specification helper: a list of intervals covers every point of `pontos`
(the union of the closed ranges contains each point's position). -/
def cobre_todos (sol : List Intervalo) (pontos : List Ponto) : Bool :=
  pontos.all fun p => sol.any fun iv => ponto_coberto_por_intervalo p iv

/-- One pass of the inner loop of `verificar_cobertura_parcial`
(`coberturaBacktracking.c`, lines 290-303): mark in the temporary mask every
point covered by one interval of the partial solution. -/
def marcar_cobertura_temp (pontos : List Ponto) (mask : List Bool) (iv : Intervalo) :
    List Bool :=
  List.zipWith (fun p m => m || ponto_coberto_por_intervalo_backtracking p iv) pontos mask

/-- `verificar_cobertura_parcial` of `coberturaBacktracking.c`: rebuild a
coverage mask from scratch for the current partial solution and compare the
number of covered points with the number of points. -/
def verificar_cobertura_parcial (pontos : List Ponto) (sol : List Intervalo) : Bool :=
  let mask := sol.foldl (marcar_cobertura_temp pontos) (pontos.map fun _ => false)
  (mask.count true) == pontos.length

section MaskLemmas

lemma zipWith_zipWith_right {α β : Type} (f g : α → β → β) (ps : List α) (m : List β) :
    List.zipWith f ps (List.zipWith g ps m) = List.zipWith (fun p b => f p (g p b)) ps m := by
  induction ps generalizing m with
  | nil => simp
  | cons p ps ih =>
    cases m with
    | nil => simp
    | cons b m => simp [ih]

lemma zipWith_congr_fun {α β γ : Type} (f g : α → β → γ) (ps : List α) (m : List β)
    (h : ∀ p b, f p b = g p b) : List.zipWith f ps m = List.zipWith g ps m := by
  induction ps generalizing m with
  | nil => simp
  | cons p ps ih =>
    cases m with
    | nil => simp
    | cons b m => simp only [List.zipWith_cons_cons, h, ih]

lemma zipWith_map_const_right {α β γ : Type} (g : α → β → γ) (ps : List α) (c : β) :
    List.zipWith g ps (ps.map fun _ => c) = ps.map fun p => g p c := by
  induction ps with
  | nil => simp
  | cons p ps ih => simp only [List.map_cons, List.zipWith_cons_cons, ih]

lemma zipWith_self_right {α β : Type} (ps : List α) (m : List β) (h : ps.length = m.length) :
    List.zipWith (fun _ b => b) ps m = m := by
  induction ps generalizing m with
  | nil => cases m with
    | nil => simp
    | cons b m => simp at h
  | cons p ps ih =>
    cases m with
    | nil => simp at h
    | cons b m =>
      simp only [List.zipWith_cons_cons]
      simp only [List.length_cons, Nat.succ_inj] at h
      rw [ih m h]

/-- Folding the marking pass over a list of intervals produces the pointwise
disjunction with the `any` of the whole list. -/
lemma foldl_marcar (pontos : List Ponto) (sol : List Intervalo) (m : List Bool)
    (h : pontos.length = m.length) :
    sol.foldl (marcar_cobertura_temp pontos) m =
      List.zipWith
        (fun p b => b || sol.any fun iv => ponto_coberto_por_intervalo_backtracking p iv)
        pontos m := by
  induction sol generalizing m with
  | nil =>
    simp only [List.foldl_nil, List.any_nil, Bool.or_false]
    exact (zipWith_self_right pontos m h).symm
  | cons iv sol ih =>
    simp only [List.foldl_cons]
    have hlen : pontos.length = (marcar_cobertura_temp pontos m iv).length := by
      simp [marcar_cobertura_temp, h]
    rw [ih _ hlen]
    simp only [marcar_cobertura_temp, zipWith_zipWith_right]
    apply zipWith_congr_fun
    intro p b
    simp [Bool.or_assoc]

lemma count_true_eq_length_iff (l : List Bool) :
    (l.count true = l.length) ↔ ∀ b ∈ l, b = true := by
  induction l with
  | nil => simp
  | cons b l ih =>
    cases b with
    | true => simpa using ih
    | false =>
      constructor
      · intro h
        have hle := List.count_le_length (l := l) (a := true)
        have hc : (false :: l).count true = l.count true := by
          simp [List.count_cons]
        rw [hc] at h
        simp only [List.length_cons] at h
        omega
      · intro h
        exact absurd (h false (by simp)) (by simp)

/-- `verificar_cobertura_parcial` decides exactly full coverage. -/
lemma verificar_iff (pontos : List Ponto) (sol : List Intervalo) :
    verificar_cobertura_parcial pontos sol = true ↔
      (∀ p ∈ pontos, (sol.any fun iv =>
        ponto_coberto_por_intervalo_backtracking p iv) = true) := by
  unfold verificar_cobertura_parcial
  have hm : (pontos.map fun _ => false).length = pontos.length := by simp
  rw [foldl_marcar pontos sol _ hm.symm]
  have hz : List.zipWith
      (fun p b => b || sol.any fun iv => ponto_coberto_por_intervalo_backtracking p iv)
      pontos (pontos.map fun _ => false) =
      pontos.map fun p =>
        false || sol.any fun iv => ponto_coberto_por_intervalo_backtracking p iv :=
    zipWith_map_const_right _ pontos false
  rw [hz]
  simp only [Bool.false_or]
  have hlen : (pontos.map fun p => sol.any fun iv =>
      ponto_coberto_por_intervalo_backtracking p iv).length = pontos.length := by simp
  rw [beq_iff_eq, ← hlen, count_true_eq_length_iff]
  simp

/-- The two copies of the coverage predicate agree. -/
lemma cov_eq_cov_bt (p : Ponto) (iv : Intervalo) :
    ponto_coberto_por_intervalo p iv = ponto_coberto_por_intervalo_backtracking p iv := rfl

/-- `verificar_cobertura_parcial` in terms of the specification helper. -/
lemma verificar_eq_cobre (pontos : List Ponto) (sol : List Intervalo) :
    verificar_cobertura_parcial pontos sol = cobre_todos sol pontos := by
  rcases h : cobre_todos sol pontos with _ | _
  · rcases h2 : verificar_cobertura_parcial pontos sol with _ | _
    · rfl
    · exfalso
      rw [verificar_iff] at h2
      unfold cobre_todos at h
      rw [← Bool.not_eq_true, List.all_eq_true] at h
      push_neg at h
      obtain ⟨p, hp, hnp⟩ := h
      exact hnp (h2 p hp)
  · rw [verificar_iff]
    unfold cobre_todos at h
    rw [List.all_eq_true] at h
    exact h

end MaskLemmas

/-! ## Exact solver (`coberturaBacktracking.c`) -/

/-- The C `INT_MAX` sentinel used for "no complete cover found yet". -/
def INT_MAX : Nat := 2147483647

/-- Mutable solver state of `ProblemaBacktracking` (the fields written by the
search; the instance data `pontos`/`intervalos` is read-only during a solve and
passed separately).  `solucao_atual` and `melhor_solucao` are the live prefixes
of the corresponding C arrays; `n_melhor_solucao` is the separately stored size
carrying the `INT_MAX` sentinel. -/
structure BTState where
  solucao_atual : List Intervalo
  melhor_solucao : List Intervalo
  n_melhor_solucao : Nat
  nos_visitados : Nat
deriving DecidableEq, Repr

/-- The solver-state part of `inicializar_problema_backtracking`. -/
def inicializar_problema_backtracking : BTState :=
  { solucao_atual := []
    melhor_solucao := []
    n_melhor_solucao := INT_MAX
    nos_visitados := 0 }

/-- `copiar_solucao`: record the current partial solution as the best one
(the C `malloc` is assumed to succeed, as everywhere in this model). -/
def copiar_solucao (s : BTState) : BTState :=
  { s with
    melhor_solucao := s.solucao_atual
    n_melhor_solucao := s.solucao_atual.length }

/-- `comparar_intervalos_backtracking`: descending by length `fim - inicio`,
ties ascending by `inicio` (the `qsort` comparator). -/
def comparar_intervalos_backtracking (a b : Intervalo) : Int :=
  let tamanho_a := a.fim - a.inicio
  let tamanho_b := b.fim - b.inicio
  if tamanho_a > tamanho_b then -1
  else if tamanho_a < tamanho_b then 1
  else if a.inicio < b.inicio then -1
  else if a.inicio > b.inicio then 1
  else 0

/-- `backtracking_recursivo`: the include/exclude search.  The C recursion on
`indice_intervalo` over the array `problema->intervalos` becomes structural
recursion on the list `rest` of intervals from that index on; the C early
return at `indice_intervalo >= n_intervalos` is the `[]` case (the node counter
is incremented before that check).  `n_solucao_atual` is
`solucao_atual.length`, and the undo `n_solucao_atual--` is `dropLast` of the
live prefix. -/
def backtracking_recursivo (pontos : List Ponto) :
    List Intervalo → BTState → BTState
  | [], s => { s with nos_visitados := s.nos_visitados + 1 }
  | iv :: rest, s =>
    let s0 := { s with nos_visitados := s.nos_visitados + 1 }
    if s0.solucao_atual.length ≥ s0.n_melhor_solucao then
      s0
    else if s0.solucao_atual.length + 1 ≥ s0.n_melhor_solucao then
      -- pode_podar: skip the include branch, only explore the exclude branch
      backtracking_recursivo pontos rest s0
    else
      let s1 := { s0 with solucao_atual := s0.solucao_atual ++ [iv] }
      let s2 :=
        if verificar_cobertura_parcial pontos s1.solucao_atual then
          if s1.solucao_atual.length < s1.n_melhor_solucao then copiar_solucao s1 else s1
        else
          backtracking_recursivo pontos rest s1
      let s3 := { s2 with solucao_atual := s2.solucao_atual.dropLast }
      backtracking_recursivo pontos rest s3

/-- The metrics record returned by `resolver_backtracking` (`tempo` and
`memoria` are external measurements, not modelled). -/
structure MetricasBacktracking where
  qualidade : ℚ
  n_solucao : Nat
  nos_visitados : Nat
deriving DecidableEq, Repr

/-- `resolver_backtracking`: allocates a fresh empty partial solution, resets
the node counter, runs the search from index 0 and fills in the metrics.  Note
that `melhor_solucao`/`n_melhor_solucao` of the incoming state are *not*
reset (the C function does not touch them before the search), which is why the
incoming `BTState` is a parameter. -/
def resolver_backtracking (pontos : List Ponto) (intervalos : List Intervalo)
    (problema : BTState) : BTState × MetricasBacktracking :=
  let s0 := { problema with solucao_atual := [], nos_visitados := 0 }
  let s1 := backtracking_recursivo pontos intervalos s0
  let qualidade : ℚ :=
    if intervalos.length > 0 then
      1 - (s1.n_melhor_solucao : ℚ) / (intervalos.length : ℚ)
    else 0
  (s1,
   { qualidade := qualidade
     n_solucao := s1.n_melhor_solucao
     nos_visitados := s1.nos_visitados })

section BacktrackingLemmas

/-- Unfolding of the search at a non-final index, with the branch conditions
expressed on the incoming state (the node-counter bump does not change them). -/
lemma btRec_cons (pontos : List Ponto) (iv : Intervalo) (rest : List Intervalo)
    (s : BTState) :
    backtracking_recursivo pontos (iv :: rest) s =
      (if s.solucao_atual.length ≥ s.n_melhor_solucao then
        { s with nos_visitados := s.nos_visitados + 1 }
      else if s.solucao_atual.length + 1 ≥ s.n_melhor_solucao then
        backtracking_recursivo pontos rest { s with nos_visitados := s.nos_visitados + 1 }
      else
        let s1 : BTState :=
          { s with nos_visitados := s.nos_visitados + 1,
                   solucao_atual := s.solucao_atual ++ [iv] }
        let s2 : BTState :=
          if verificar_cobertura_parcial pontos s1.solucao_atual then
            if s1.solucao_atual.length < s1.n_melhor_solucao then copiar_solucao s1 else s1
          else
            backtracking_recursivo pontos rest s1
        backtracking_recursivo pontos rest
          { s2 with solucao_atual := s2.solucao_atual.dropLast }) := rfl

/-- Frame property of the search: the partial solution is restored on return
(every include is undone before the call returns). -/
lemma btRec_sol (pontos : List Ponto) (rest : List Intervalo) (s : BTState) :
    (backtracking_recursivo pontos rest s).solucao_atual = s.solucao_atual := by
  induction rest generalizing s with
  | nil => rfl
  | cons iv rest ih =>
    rw [btRec_cons]
    by_cases h1 : s.solucao_atual.length ≥ s.n_melhor_solucao
    · rw [if_pos h1]
    · rw [if_neg h1]
      by_cases h2 : s.solucao_atual.length + 1 ≥ s.n_melhor_solucao
      · rw [if_pos h2, ih]
      · rw [if_neg h2]
        rw [ih]
        by_cases hv : verificar_cobertura_parcial pontos (s.solucao_atual ++ [iv])
        · rw [if_pos hv]
          by_cases hc : s.solucao_atual.length + 1 < s.n_melhor_solucao
          · simp only [List.length_append, List.length_cons, List.length_nil] at *
            rw [if_pos (by simpa using hc)]
            simp [copiar_solucao, List.dropLast_concat]
          · rw [if_neg (by simpa using hc)]
            simp [List.dropLast_concat]
        · rw [if_neg hv]
          rw [ih]
          simp [List.dropLast_concat]

/-- The best size found never increases during the search. -/
lemma btRec_mono (pontos : List Ponto) (rest : List Intervalo) (s : BTState) :
    (backtracking_recursivo pontos rest s).n_melhor_solucao ≤ s.n_melhor_solucao := by
  induction rest generalizing s with
  | nil => exact le_refl _
  | cons iv rest ih =>
    rw [btRec_cons]
    by_cases h1 : s.solucao_atual.length ≥ s.n_melhor_solucao
    · rw [if_pos h1]
    · rw [if_neg h1]
      by_cases h2 : s.solucao_atual.length + 1 ≥ s.n_melhor_solucao
      · rw [if_pos h2]
        exact ih _
      · rw [if_neg h2]
        dsimp only
        by_cases hv : verificar_cobertura_parcial pontos (s.solucao_atual ++ [iv])
        · rw [if_pos hv]
          by_cases hc : s.solucao_atual.length + 1 < s.n_melhor_solucao
          · rw [if_pos (by simpa using hc)]
            refine le_trans (ih _) ?_
            simp only [copiar_solucao]
            simp only [List.length_append, List.length_cons, List.length_nil]
            omega
          · rw [if_neg (by simpa using hc)]
            exact le_trans (ih _) (le_refl _)
        · rw [if_neg hv]
          exact le_trans (ih _) (ih _)

end BacktrackingLemmas

section BacktrackingCore

/-- Soundness of the search: either the best solution is untouched, or the new
best is the current partial solution extended by a nonempty sublist of the
remaining intervals, it fully covers the points, its stored size is its
length, and it strictly improves on the incoming best size. -/
lemma btRec_sound (pontos : List Ponto) (rest : List Intervalo) (s : BTState) :
    ((backtracking_recursivo pontos rest s).melhor_solucao = s.melhor_solucao ∧
     (backtracking_recursivo pontos rest s).n_melhor_solucao = s.n_melhor_solucao) ∨
    (∃ m, m ≠ [] ∧ List.Sublist m rest ∧
      (backtracking_recursivo pontos rest s).melhor_solucao = s.solucao_atual ++ m ∧
      cobre_todos (backtracking_recursivo pontos rest s).melhor_solucao pontos = true ∧
      (backtracking_recursivo pontos rest s).melhor_solucao.length =
        (backtracking_recursivo pontos rest s).n_melhor_solucao ∧
      (backtracking_recursivo pontos rest s).n_melhor_solucao < s.n_melhor_solucao) := by
  induction rest generalizing s with
  | nil => exact Or.inl ⟨rfl, rfl⟩
  | cons iv rest ih =>
    rw [btRec_cons]
    by_cases h1 : s.solucao_atual.length ≥ s.n_melhor_solucao
    · rw [if_pos h1]
      exact Or.inl ⟨rfl, rfl⟩
    · rw [if_neg h1]
      by_cases h2 : s.solucao_atual.length + 1 ≥ s.n_melhor_solucao
      · rw [if_pos h2]
        rcases ih { s with nos_visitados := s.nos_visitados + 1 } with h | ⟨m, hm0, hsub, hmel, hcov, hlen, hlt⟩
        · exact Or.inl h
        · exact Or.inr ⟨m, hm0, hsub.cons iv, hmel, hcov, hlen, hlt⟩
      · rw [if_neg h2]
        dsimp only
        by_cases hv : verificar_cobertura_parcial pontos (s.solucao_atual ++ [iv])
        · rw [if_pos hv]
          rw [if_pos (show (s.solucao_atual ++ [iv]).length < s.n_melhor_solucao by
            simp only [List.length_append, List.length_cons, List.length_nil]; omega)]
          have hs3 :
              ({ (copiar_solucao
                    { s with nos_visitados := s.nos_visitados + 1,
                             solucao_atual := s.solucao_atual ++ [iv] }) with
                 solucao_atual :=
                   (copiar_solucao
                     { s with nos_visitados := s.nos_visitados + 1,
                              solucao_atual := s.solucao_atual ++ [iv] }).solucao_atual.dropLast } :
                BTState) =
              { solucao_atual := s.solucao_atual
                melhor_solucao := s.solucao_atual ++ [iv]
                n_melhor_solucao := s.solucao_atual.length + 1
                nos_visitados := s.nos_visitados + 1 } := by
            simp [copiar_solucao, List.dropLast_concat]
          rw [hs3]
          have hcovi : cobre_todos (s.solucao_atual ++ [iv]) pontos = true := by
            rw [← verificar_eq_cobre]; exact hv
          rcases ih { solucao_atual := s.solucao_atual
                      melhor_solucao := s.solucao_atual ++ [iv]
                      n_melhor_solucao := s.solucao_atual.length + 1
                      nos_visitados := s.nos_visitados + 1 } with ⟨ha, hb⟩ | ⟨m, hm0, hsub, hmel, hcov, hlen, hlt⟩
        
          · refine Or.inr ⟨[iv], by simp, ?_, ?_, ?_, ?_, ?_⟩
            · exact (List.nil_sublist rest).cons₂ iv
            · rw [ha]
            · rw [ha]; exact hcovi
            · rw [ha, hb]; simp
            · rw [hb]
              show s.solucao_atual.length + 1 < s.n_melhor_solucao
              omega
          · refine Or.inr ⟨m, hm0, hsub.cons iv, hmel, hcov, hlen, ?_⟩
            calc (backtracking_recursivo pontos rest _).n_melhor_solucao
                < s.solucao_atual.length + 1 := hlt
              _ ≤ s.n_melhor_solucao := by omega
        · rw [if_neg hv]
          -- include branch recursed; name the state after the inner call
          set s1 : BTState :=
            { s with nos_visitados := s.nos_visitados + 1,
                     solucao_atual := s.solucao_atual ++ [iv] } with hs1
          set s2 : BTState := backtracking_recursivo pontos rest s1 with hs2
          have hs2sol : s2.solucao_atual = s.solucao_atual ++ [iv] := by
            rw [hs2]; exact btRec_sol pontos rest s1
          have hs3sol : s2.solucao_atual.dropLast = s.solucao_atual := by
            rw [hs2sol]; exact List.dropLast_concat ..
          rcases ih { s2 with solucao_atual := s2.solucao_atual.dropLast } with
            ⟨ha, hb⟩ | ⟨m, hm0, hsub, hmel, hcov, hlen, hlt⟩
          · -- the outer exclude call did not change the best; look at the inner call
            rcases ih s1 with ⟨hc, hd⟩ | ⟨m, hm0, hsub, hmel, hcov, hlen, hlt⟩
            · exact Or.inl ⟨by rw [ha]; exact hc, by rw [hb]; exact hd⟩
            · refine Or.inr ⟨iv :: m, by simp, hsub.cons₂ iv, ?_, ?_, ?_, ?_⟩
              · rw [ha, hmel, hs1]
                simp
              · rw [ha]; exact hcov
              · rw [ha, hb]
                dsimp only
                rw [hs2]
                exact hlen
              · rw [hb]; exact hlt
          · -- the outer exclude call improved the best
            refine Or.inr ⟨m, hm0, hsub.cons iv, ?_, hcov, hlen, ?_⟩
            · rw [hmel, hs3sol]
            · exact lt_of_lt_of_le hlt (btRec_mono pontos rest s1)
  
end BacktrackingCore

lemma sublist_cons_cases {α : Type} (a : α) (m l : List α) (h : List.Sublist m (a :: l)) :
    List.Sublist m l ∨ ∃ m1, m = a :: m1 ∧ List.Sublist m1 l := by
  cases h with
  | cons _ h2 => exact Or.inl h2
  | cons₂ _ h2 => exact Or.inr ⟨_, rfl, h2⟩

/-- Completeness of the search: for every nonempty sublist `m` of the
remaining intervals such that the current partial solution extended by `m`
fully covers the points, the search returns a best size at most
`|solucao_atual| + |m|` (pruning never loses a better candidate). -/
lemma btRec_complete (pontos : List Ponto) (rest : List Intervalo) :
    ∀ (s : BTState) (m : List Intervalo), List.Sublist m rest → m ≠ [] →
      cobre_todos (s.solucao_atual ++ m) pontos = true →
      (backtracking_recursivo pontos rest s).n_melhor_solucao ≤
        s.solucao_atual.length + m.length := by
  induction rest with
  | nil =>
    intro s m hsub hne _
    cases List.sublist_nil.mp hsub
    exact absurd rfl hne
  | cons iv rest ih =>
    intro s m hsub hne hcov
    rw [btRec_cons]
    by_cases h1 : s.solucao_atual.length ≥ s.n_melhor_solucao
    · rw [if_pos h1]
      show s.n_melhor_solucao ≤ s.solucao_atual.length + m.length
      omega
    · rw [if_neg h1]
      by_cases h2 : s.solucao_atual.length + 1 ≥ s.n_melhor_solucao
      · rw [if_pos h2]
        rcases sublist_cons_cases iv m rest hsub with hsub2 | ⟨m1, rfl, hsub2⟩
        · exact ih { s with nos_visitados := s.nos_visitados + 1 } m hsub2 hne hcov
        · have hmono := btRec_mono pontos rest { s with nos_visitados := s.nos_visitados + 1 }
          have hn : ({ s with nos_visitados := s.nos_visitados + 1 } : BTState).n_melhor_solucao
              = s.n_melhor_solucao := rfl
          rw [hn] at hmono
          simp only [List.length_cons]
          omega
      · rw [if_neg h2]
        dsimp only
        by_cases hv : verificar_cobertura_parcial pontos (s.solucao_atual ++ [iv])
        · rw [if_pos hv]
          rw [if_pos (show (s.solucao_atual ++ [iv]).length < s.n_melhor_solucao by
            simp only [List.length_append, List.length_cons, List.length_nil]; omega)]
          have hs3 :
              ({ (copiar_solucao
                    { s with nos_visitados := s.nos_visitados + 1,
                             solucao_atual := s.solucao_atual ++ [iv] }) with
                 solucao_atual :=
                   (copiar_solucao
                     { s with nos_visitados := s.nos_visitados + 1,
                              solucao_atual := s.solucao_atual ++ [iv] }).solucao_atual.dropLast } :
                BTState) =
              { solucao_atual := s.solucao_atual
                melhor_solucao := s.solucao_atual ++ [iv]
                n_melhor_solucao := s.solucao_atual.length + 1
                nos_visitados := s.nos_visitados + 1 } := by
            simp [copiar_solucao, List.dropLast_concat]
          rw [hs3]
          rcases sublist_cons_cases iv m rest hsub with hsub2 | ⟨m1, rfl, hsub2⟩
          · exact ih _ m hsub2 hne hcov
          · have hmono := btRec_mono pontos rest
              { solucao_atual := s.solucao_atual
                melhor_solucao := s.solucao_atual ++ [iv]
                n_melhor_solucao := s.solucao_atual.length + 1
                nos_visitados := s.nos_visitados + 1 }
            simp only [List.length_cons]
            simp only at hmono
            omega
        · rw [if_neg hv]
          have hsol2 : (backtracking_recursivo pontos rest
              { s with nos_visitados := s.nos_visitados + 1,
                       solucao_atual := s.solucao_atual ++ [iv] }).solucao_atual
              = s.solucao_atual ++ [iv] := btRec_sol ..
          rcases sublist_cons_cases iv m rest hsub with hsub2 | ⟨m1, rfl, hsub2⟩
          · have hres := ih
              { (backtracking_recursivo pontos rest
                  { s with nos_visitados := s.nos_visitados + 1,
                           solucao_atual := s.solucao_atual ++ [iv] }) with
                solucao_atual :=
                  (backtracking_recursivo pontos rest
                    { s with nos_visitados := s.nos_visitados + 1,
                             solucao_atual := s.solucao_atual ++ [iv] }).solucao_atual.dropLast }
              m hsub2 hne ?_
            · calc (backtracking_recursivo pontos rest _).n_melhor_solucao
                  ≤ _ := hres
                _ ≤ s.solucao_atual.length + m.length := by
                    dsimp only
                    rw [hsol2, List.dropLast_concat]
            · dsimp only
              rw [hsol2, List.dropLast_concat]
              exact hcov
          · by_cases hm1 : m1 = []
            · subst hm1
              exfalso
              apply hv
              rw [verificar_eq_cobre]
              simpa using hcov
            · have hin := ih
                { s with nos_visitados := s.nos_visitados + 1,
                         solucao_atual := s.solucao_atual ++ [iv] }
                m1 hsub2 hm1 (by
                  dsimp only
                  rw [List.append_assoc]
                  simpa using hcov)
              have hmono := btRec_mono pontos rest
                { (backtracking_recursivo pontos rest
                    { s with nos_visitados := s.nos_visitados + 1,
                             solucao_atual := s.solucao_atual ++ [iv] }) with
                  solucao_atual :=
                    (backtracking_recursivo pontos rest
                      { s with nos_visitados := s.nos_visitados + 1,
                               solucao_atual := s.solucao_atual ++ [iv] }).solucao_atual.dropLast }
              dsimp only at hin hmono ⊢
              simp only [List.length_append, List.length_cons, List.length_nil] at hin ⊢
              omega

/-! ## Greedy solver (`coberturaGuloso.c`) -/

/-- `comparar_intervalos` of the greedy file: ascending by `fim`, ties
ascending by `inicio` (the `qsort` comparator). -/
def comparar_intervalos (a b : Intervalo) : Int :=
  if a.fim < b.fim then -1
  else if a.fim > b.fim then 1
  else if a.inicio < b.inicio then -1
  else if a.inicio > b.inicio then 1
  else 0

/-- `marcar_pontos_cobertos`: mark every point of the interval as covered
(the C guard `pontos_cobertos[i] == 0` makes the update an or). -/
def marcar_pontos_cobertos (pontos : List Ponto) (mask : List Bool) (iv : Intervalo) :
    List Bool :=
  List.zipWith (fun p m => m || ponto_coberto_por_intervalo p iv) pontos mask

/-- The running counter `n_pontos_cobertos`, recovered from the mask (the C
code increments it exactly when a mask entry flips from 0 to 1). -/
def n_pontos_cobertos (mask : List Bool) : Nat := mask.count true

/-- `todos_pontos_cobertos`: compare the covered counter with the number of
points. -/
def todos_pontos_cobertos (pontos : List Ponto) (mask : List Bool) : Bool :=
  n_pontos_cobertos mask == pontos.length

/-- Loop body of `obter_proximo_ponto_nao_coberto`, scanning from index `i`. -/
def obter_proximo_aux : List Bool → Nat → Option Nat
  | [], _ => none
  | b :: rest, i => if b = false then some i else obter_proximo_aux rest (i + 1)

/-- `obter_proximo_ponto_nao_coberto`: index of the first uncovered point
(`none` models the C return value `-1`). -/
def obter_proximo_ponto_nao_coberto (mask : List Bool) : Option Nat :=
  obter_proximo_aux mask 0

/-- The inner counting loop of `encontrar_melhor_intervalo`
(`pontos_cobertos_potencial`): number of not-yet-covered points contained in
the interval. -/
def pontos_cobertos_potencial (pontos : List Ponto) (mask : List Bool) (iv : Intervalo) :
    Nat :=
  (List.zip pontos mask).countP fun pm => !pm.2 && ponto_coberto_por_intervalo pm.1 iv

/-- The scanning loop of `encontrar_melhor_intervalo`.  The accumulator keeps
`melhor_intervalo` together with the interval stored at that index (the C code
re-reads `intervalos[melhor_intervalo]`, which always holds this very value)
and `max_pontos_cobertos`. -/
def encontrar_aux (pontos : List Ponto) (mask : List Bool) (ponto_atual : Ponto) :
    List Intervalo → Nat → Option (Nat × Intervalo) → Nat → Option (Nat × Intervalo)
  | [], _, melhor, _ => melhor
  | iv :: rest, i, melhor, maxPts =>
    if ponto_coberto_por_intervalo ponto_atual iv then
      let pot := pontos_cobertos_potencial pontos mask iv
      if maxPts < pot then
        encontrar_aux pontos mask ponto_atual rest (i + 1) (some (i, iv)) pot
      else if pot = maxPts ∧ 0 < pot then
        match melhor with
        | none => encontrar_aux pontos mask ponto_atual rest (i + 1) (some (i, iv)) maxPts
        | some (k, ivk) =>
          if iv.fim - iv.inicio < ivk.fim - ivk.inicio then
            encontrar_aux pontos mask ponto_atual rest (i + 1) (some (i, iv)) maxPts
          else
            encontrar_aux pontos mask ponto_atual rest (i + 1) (some (k, ivk)) maxPts
      else
        encontrar_aux pontos mask ponto_atual rest (i + 1) melhor maxPts
    else
      encontrar_aux pontos mask ponto_atual rest (i + 1) melhor maxPts

/-- `encontrar_melhor_intervalo`: index of the best interval for the anchor
point `pontos[indice_ponto]` (`none` models the C return value `-1`). -/
def encontrar_melhor_intervalo (pontos : List Ponto) (mask : List Bool)
    (intervalos : List Intervalo) (indice_ponto : Nat) : Option Nat :=
  (encontrar_aux pontos mask (pontos.getD indice_ponto ⟨0, 0⟩) intervalos 0 none 0).map
    Prod.fst

/-- The `while` loop of `resolver_guloso`, with an explicit fuel.  Every
iteration covers at least the anchor point, so `pontos.length` fuel always
suffices to reach one of the three loop exits (all covered, no uncovered
point, no interval containing the anchor); this is proved below
(`resolver_guloso_loop_fixpoint`). -/
def resolver_guloso_loop (pontos : List Ponto) (intervalos : List Intervalo) :
    Nat → List Bool → List Intervalo → List Bool × List Intervalo
  | 0, mask, sol => (mask, sol)
  | fuel + 1, mask, sol =>
    if todos_pontos_cobertos pontos mask then (mask, sol)
    else
      match obter_proximo_ponto_nao_coberto mask with
      | none => (mask, sol)
      | some indice_ponto =>
        match encontrar_melhor_intervalo pontos mask intervalos indice_ponto with
        | none => (mask, sol)
        | some indice_intervalo =>
          resolver_guloso_loop pontos intervalos fuel
            (marcar_pontos_cobertos pontos mask (intervalos.getD indice_intervalo ⟨0, 0⟩))
            (sol ++ [intervalos.getD indice_intervalo ⟨0, 0⟩])

/-- Observable result of `resolver_guloso` (`tempo` and `memoria` are external
measurements, not modelled): the solution array with its size, the final
coverage state, and the quality metric. -/
structure ResultadoGuloso where
  solucao : List Intervalo
  pontos_cobertos : List Bool
  n_pontos_cobertos : Nat
  n_solucao : Nat
  qualidade : ℚ
deriving DecidableEq, Repr

/-- `resolver_guloso`: fresh all-zero mask (`calloc`), empty solution, run the
greedy loop, then fill in the metrics.  Unlike the exact solver, this function
resets every piece of state it reads, so it depends only on the instance. -/
def resolver_guloso (pontos : List Ponto) (intervalos : List Intervalo) :
    ResultadoGuloso :=
  let r := resolver_guloso_loop pontos intervalos pontos.length
    (pontos.map fun _ => false) []
  { solucao := r.2
    pontos_cobertos := r.1
    n_pontos_cobertos := n_pontos_cobertos r.1
    n_solucao := r.2.length
    qualidade :=
      if intervalos.length > 0 then
        1 - (r.2.length : ℚ) / (intervalos.length : ℚ)
      else 0 }

section GulosoLemmas

/-- The coverage mask determined by a chosen solution: entry `j` says whether
some chosen interval covers point `j`. -/
def mask_de (pontos : List Ponto) (sol : List Intervalo) : List Bool :=
  pontos.map fun p => sol.any fun iv => ponto_coberto_por_intervalo p iv

lemma zipWith_map_right_self {α β γ : Type} (g : α → β → γ) (f : α → β) (ps : List α) :
    List.zipWith g ps (ps.map f) = ps.map fun p => g p (f p) := by
  induction ps with
  | nil => simp
  | cons p ps ih => simp only [List.map_cons, List.zipWith_cons_cons, ih]

lemma length_mask_de (pontos : List Ponto) (sol : List Intervalo) :
    (mask_de pontos sol).length = pontos.length := by
  simp [mask_de]

lemma mask_de_nil (pontos : List Ponto) :
    mask_de pontos [] = pontos.map fun _ => false := by
  simp [mask_de]

/-- Marking the points of one more interval extends the determined mask. -/
lemma marcar_mask_de (pontos : List Ponto) (sol : List Intervalo) (iv : Intervalo) :
    marcar_pontos_cobertos pontos (mask_de pontos sol) iv = mask_de pontos (sol ++ [iv]) := by
  unfold marcar_pontos_cobertos mask_de
  rw [zipWith_map_right_self]
  apply List.map_congr_left
  intro p _
  simp [List.any_append]

lemma getD_map_lt {α β : Type} (f : α → β) (l : List α) (i : Nat) (d : β) (d2 : α)
    (h : i < l.length) : (l.map f).getD i d = f (l.getD i d2) := by
  induction l generalizing i with
  | nil => simp at h
  | cons x l ih =>
    cases i with
    | zero => simp
    | succ i =>
      simp only [List.map_cons, List.getD_cons_succ]
      exact ih i (by simpa using h)

lemma getD_zip_mem {α β : Type} (ps : List α) (ms : List β) (i : Nat) (dp : α) (dm : β)
    (hp : i < ps.length) (hm : i < ms.length) :
    (ps.getD i dp, ms.getD i dm) ∈ List.zip ps ms := by
  induction ps generalizing ms i with
  | nil => simp at hp
  | cons p ps ih =>
    cases ms with
    | nil => simp at hm
    | cons m ms =>
      cases i with
      | zero => simp [List.zip_cons_cons]
      | succ i =>
        simp only [List.getD_cons_succ, List.zip_cons_cons, List.mem_cons]
        exact Or.inr (ih ms i (by simpa using hp) (by simpa using hm))

lemma getD_mem {α : Type} (l : List α) (i : Nat) (d : α) (h : i < l.length) :
    l.getD i d ∈ l := by
  induction l generalizing i with
  | nil => simp at h
  | cons x l ih =>
    cases i with
    | zero => simp
    | succ i =>
      simp only [List.getD_cons_succ, List.mem_cons]
      exact Or.inr (ih i (by simpa using h))

/-- Marking never unmarks: the covered count is monotone. -/
lemma count_marcar_le (pontos : List Ponto) (iv : Intervalo) :
    ∀ mask : List Bool, mask.length = pontos.length →
      mask.count true ≤ (marcar_pontos_cobertos pontos mask iv).count true := by
  unfold marcar_pontos_cobertos
  induction pontos with
  | nil =>
    intro mask h
    rw [List.length_nil] at h
    cases mask with
    | nil => simp
    | cons b bs => simp at h
  | cons p ps ih =>
    intro mask h
    cases mask with
    | nil => simp
    | cons b bs =>
      simp only [List.zipWith_cons_cons]
      have ht := ih bs (by simpa using h)
      cases b with
      | true =>
        simp only [Bool.true_or, List.count_cons_self]
        omega
      | false =>
        simp only [Bool.false_or]
        have hne : (false :: bs).count true = bs.count true := by
          simp [List.count_cons]
        rw [hne]
        cases hcb : ponto_coberto_por_intervalo p iv with
        | true =>
          rw [List.count_cons_self]
          omega
        | false =>
          have hne2 : (false :: List.zipWith
              (fun p m => m || ponto_coberto_por_intervalo p iv) ps bs).count true =
              (List.zipWith (fun p m => m || ponto_coberto_por_intervalo p iv) ps bs).count
                true := by
            simp [List.count_cons]
          rw [hne2]
          exact ht

/-- Marking an interval that covers a currently uncovered point strictly
increases the covered count. -/
lemma count_marcar_lt (pontos : List Ponto) (iv : Intervalo) :
    ∀ (mask : List Bool) (idx : Nat), mask.length = pontos.length →
      idx < mask.length → mask.getD idx true = false →
      ponto_coberto_por_intervalo (pontos.getD idx ⟨0, 0⟩) iv = true →
      mask.count true < (marcar_pontos_cobertos pontos mask iv).count true := by
  induction pontos with
  | nil =>
    intro mask idx h hidx _ _
    rw [List.length_nil] at h
    omega
  | cons p ps ih =>
    intro mask idx h hidx hbit hcov
    cases mask with
    | nil => simp at hidx
    | cons b bs =>
      unfold marcar_pontos_cobertos
      simp only [List.zipWith_cons_cons]
      cases idx with
      | zero =>
        simp only [List.getD_cons_zero] at hbit hcov
        subst hbit
        rw [hcov]
        have ht := count_marcar_le ps iv bs (by simpa using h)
        unfold marcar_pontos_cobertos at ht
        have hne : (false :: bs).count true = bs.count true := by
          simp [List.count_cons]
        rw [hne, Bool.false_or, List.count_cons_self]
        omega
      | succ idx =>
        simp only [List.getD_cons_succ] at hbit hcov
        have ht := ih bs idx (by simpa using h) (by simpa using hidx) hbit hcov
        unfold marcar_pontos_cobertos at ht
        cases b with
        | true =>
          rw [Bool.true_or, List.count_cons_self, List.count_cons_self]
          omega
        | false =>
          rw [Bool.false_or]
          have hne : (false :: bs).count true = bs.count true := by
            simp [List.count_cons]
          rw [hne]
          cases hcb : ponto_coberto_por_intervalo p iv with
          | true =>
            rw [List.count_cons_self]
            omega
          | false =>
            have hne2 : (false :: List.zipWith
                (fun p m => m || ponto_coberto_por_intervalo p iv) ps bs).count true =
                (List.zipWith (fun p m => m || ponto_coberto_por_intervalo p iv) ps bs).count
                  true := by
              simp [List.count_cons]
            rw [hne2]
            exact ht

lemma obter_aux_none (mask : List Bool) :
    ∀ i, obter_proximo_aux mask i = none → ∀ b ∈ mask, b = true := by
  induction mask with
  | nil => intro i _ b hb; simp at hb
  | cons x rest ih =>
    intro i h b hb
    unfold obter_proximo_aux at h
    by_cases hx : x = false
    · rw [if_pos hx] at h; cases h
    · rw [if_neg hx] at h
      rcases List.mem_cons.mp hb with rfl | hb2
      · exact Bool.of_not_eq_false hx
      · exact ih (i + 1) h b hb2

lemma obter_aux_some (mask : List Bool) :
    ∀ i j, obter_proximo_aux mask i = some j →
      i ≤ j ∧ j - i < mask.length ∧ mask.getD (j - i) true = false ∧
        ∀ t, t < j - i → mask.getD t true = true := by
  induction mask with
  | nil => intro i j h; cases h
  | cons x rest ih =>
    intro i j h
    unfold obter_proximo_aux at h
    by_cases hx : x = false
    · rw [if_pos hx] at h
      cases h
      refine ⟨le_refl _, by simp, by simpa using hx, ?_⟩
      intro t ht
      omega
    · rw [if_neg hx] at h
      obtain ⟨h1, h2, h3, h4⟩ := ih (i + 1) j h
      refine ⟨by omega, by simp; omega, ?_, ?_⟩
      · have : j - i = (j - (i + 1)) + 1 := by omega
        rw [this, List.getD_cons_succ]
        exact h3
      · intro t ht
        cases t with
        | zero => simpa using Bool.of_not_eq_false hx
        | succ t =>
          rw [List.getD_cons_succ]
          exact h4 t (by omega)

/-- Specification of `obter_proximo_ponto_nao_coberto`: `some idx` is the
first uncovered index. -/
lemma obter_some_spec (mask : List Bool) (idx : Nat)
    (h : obter_proximo_ponto_nao_coberto mask = some idx) :
    idx < mask.length ∧ mask.getD idx true = false ∧
      ∀ t, t < idx → mask.getD t true = true := by
  obtain ⟨_, h2, h3, h4⟩ := obter_aux_some mask 0 idx h
  rw [Nat.sub_zero] at h2 h3
  exact ⟨h2, h3, fun t ht => h4 t (by omega)⟩

/-- `none` only when every point is covered. -/
lemma obter_none_spec (mask : List Bool)
    (h : obter_proximo_ponto_nao_coberto mask = none) : ∀ b ∈ mask, b = true :=
  obter_aux_none mask 0 h

end GulosoLemmas

section EncontrarLemmas

/-- Interval length `fim - inicio`, as used by the greedy tie-break. -/
def tamanho (iv : Intervalo) : Int := iv.fim - iv.inicio

/-- Candidate `x` (index paired with the interval stored there) is at least as
good as candidate `y` for the greedy choice: covers at least as many new
points; on a tie has at most the length; on a double tie has at most the
index. -/
def melhor_que (pontos : List Ponto) (mask : List Bool) (x y : Nat × Intervalo) : Prop :=
  pontos_cobertos_potencial pontos mask y.2 ≤ pontos_cobertos_potencial pontos mask x.2 ∧
    (pontos_cobertos_potencial pontos mask y.2 = pontos_cobertos_potencial pontos mask x.2 →
      tamanho x.2 ≤ tamanho y.2 ∧ (tamanho y.2 = tamanho x.2 → x.1 ≤ y.1))

lemma melhor_que_refl (pontos : List Ponto) (mask : List Bool) (x : Nat × Intervalo) :
    melhor_que pontos mask x x :=
  ⟨le_refl _, fun _ => ⟨le_refl _, fun _ => le_refl _⟩⟩

lemma melhor_que_trans (pontos : List Ponto) (mask : List Bool) (x y z : Nat × Intervalo)
    (h1 : melhor_que pontos mask x y) (h2 : melhor_que pontos mask y z) :
    melhor_que pontos mask x z := by
  obtain ⟨a1, b1⟩ := h1
  obtain ⟨a2, b2⟩ := h2
  refine ⟨le_trans a2 a1, fun he => ?_⟩
  have he1 : pontos_cobertos_potencial pontos mask y.2 =
      pontos_cobertos_potencial pontos mask x.2 := by omega
  have he2 : pontos_cobertos_potencial pontos mask z.2 =
      pontos_cobertos_potencial pontos mask y.2 := by omega
  obtain ⟨s1, t1⟩ := b1 he1
  obtain ⟨s2, t2⟩ := b2 he2
  refine ⟨le_trans s1 s2, fun hs => ?_⟩
  have hs2 : tamanho z.2 = tamanho y.2 := by omega
  have hs1 : tamanho y.2 = tamanho x.2 := by omega
  exact le_trans (t1 hs1) (t2 hs2)

/-- Index-decorated view of a list, mirroring a C scan from index `n` on. -/
def enumera {α : Type} : Nat → List α → List (Nat × α)
  | _, [] => []
  | n, x :: rest => (n, x) :: enumera (n + 1) rest

lemma mem_enumera {α : Type} (d : α) :
    ∀ (l : List α) (n : Nat) (q : Nat × α), q ∈ enumera n l →
      n ≤ q.1 ∧ q.1 - n < l.length ∧ l.getD (q.1 - n) d = q.2 := by
  intro l
  induction l with
  | nil =>
    intro n q h
    simp [enumera] at h
  | cons x rest ih =>
    intro n q h
    rw [enumera] at h
    rcases List.mem_cons.mp h with rfl | h2
    · exact ⟨le_refl _, by simp, by simp⟩
    · obtain ⟨h1, h2, h3⟩ := ih (n + 1) q h2
      refine ⟨by omega, by simp; omega, ?_⟩
      have harith : q.1 - n = (q.1 - (n + 1)) + 1 := by omega
      rw [harith, List.getD_cons_succ]
      exact h3

lemma enumera_mem {α : Type} (d : α) :
    ∀ (l : List α) (n t : Nat), t < l.length → (n + t, l.getD t d) ∈ enumera n l := by
  intro l
  induction l with
  | nil =>
    intro n t h
    simp at h
  | cons x rest ih =>
    intro n t h
    cases t with
    | zero => simp [enumera]
    | succ t =>
      rw [enumera, List.getD_cons_succ]
      refine List.mem_cons.mpr (Or.inr ?_)
      have hm := ih (n + 1) t (by simpa using h)
      have harith : n + (t + 1) = (n + 1) + t := by omega
      rw [harith]
      exact hm

/-- An interval containing the (uncovered) anchor point newly covers at least
the anchor itself. -/
lemma pot_pos (pontos : List Ponto) (mask : List Bool) (pa : Ponto) (iv : Intervalo)
    (hz : (pa, false) ∈ List.zip pontos mask)
    (hcov : ponto_coberto_por_intervalo pa iv = true) :
    0 < pontos_cobertos_potencial pontos mask iv := by
  unfold pontos_cobertos_potencial
  rw [List.countP_pos_iff]
  exact ⟨(pa, false), hz, by simp [hcov]⟩

/-- One unfolding step of the scan. -/
lemma encontrar_aux_cons (pontos : List Ponto) (mask : List Bool) (pa : Ponto)
    (iv : Intervalo) (rest : List Intervalo) (i : Nat) (melhor : Option (Nat × Intervalo))
    (maxPts : Nat) :
    encontrar_aux pontos mask pa (iv :: rest) i melhor maxPts =
      if ponto_coberto_por_intervalo pa iv = true then
        (if maxPts < pontos_cobertos_potencial pontos mask iv then
          encontrar_aux pontos mask pa rest (i + 1) (some (i, iv))
            (pontos_cobertos_potencial pontos mask iv)
        else if pontos_cobertos_potencial pontos mask iv = maxPts ∧
            0 < pontos_cobertos_potencial pontos mask iv then
          match melhor with
          | none => encontrar_aux pontos mask pa rest (i + 1) (some (i, iv)) maxPts
          | some (k, ivk) =>
            if iv.fim - iv.inicio < ivk.fim - ivk.inicio then
              encontrar_aux pontos mask pa rest (i + 1) (some (i, iv)) maxPts
            else
              encontrar_aux pontos mask pa rest (i + 1) (some (k, ivk)) maxPts
        else encontrar_aux pontos mask pa rest (i + 1) melhor maxPts)
      else encontrar_aux pontos mask pa rest (i + 1) melhor maxPts := rfl

set_option maxHeartbeats 1000000 in
/-- Full specification of the scanning loop of `encontrar_melhor_intervalo`:
given a well-formed accumulator, the result is `none` exactly when no scanned
interval contains the anchor, and otherwise is a scanned (or accumulated)
candidate containing the anchor that is at least as good as every scanned
candidate containing the anchor and as the accumulator. -/
lemma encontrar_aux_spec (pontos : List Ponto) (mask : List Bool) (pa : Ponto)
    (hz : (pa, false) ∈ List.zip pontos mask) :
    ∀ (rest : List Intervalo) (i : Nat) (melhor : Option (Nat × Intervalo)) (maxPts : Nat),
      (∀ km, melhor = some km → ponto_coberto_por_intervalo pa km.2 = true ∧
        pontos_cobertos_potencial pontos mask km.2 = maxPts ∧ 0 < maxPts ∧ km.1 < i) →
      (melhor = none → maxPts = 0) →
      ((encontrar_aux pontos mask pa rest i melhor maxPts = none →
          melhor = none ∧
          ∀ q ∈ enumera i rest, ponto_coberto_por_intervalo pa q.2 = false) ∧
       (∀ km, encontrar_aux pontos mask pa rest i melhor maxPts = some km →
          (km ∈ enumera i rest ∨ melhor = some km) ∧
          ponto_coberto_por_intervalo pa km.2 = true ∧
          (∀ q ∈ enumera i rest, ponto_coberto_por_intervalo pa q.2 = true →
            melhor_que pontos mask km q) ∧
          (∀ a, melhor = some a → melhor_que pontos mask km a))) := by
  intro rest
  induction rest with
  | nil =>
    intro i melhor maxPts hacc _
    constructor
    · intro hr
      have hmel : melhor = none := hr
      refine ⟨hmel, ?_⟩
      intro q hq
      simp [enumera] at hq
    · intro km hr
      have hmel : melhor = some km := hr
      refine ⟨Or.inr hmel, (hacc km hmel).1, ?_, ?_⟩
      · intro q hq
        simp [enumera] at hq
      · intro a ha
        rw [hmel] at ha
        cases ha
        exact melhor_que_refl pontos mask km
  | cons iv rest ih =>
    intro i melhor maxPts hacc hnone
    by_cases hc : ponto_coberto_por_intervalo pa iv = true
    · have hp : 0 < pontos_cobertos_potencial pontos mask iv := pot_pos pontos mask pa iv hz hc
      by_cases h1 : maxPts < pontos_cobertos_potencial pontos mask iv
      · have hstep : encontrar_aux pontos mask pa (iv :: rest) i melhor maxPts =
            encontrar_aux pontos mask pa rest (i + 1) (some (i, iv))
              (pontos_cobertos_potencial pontos mask iv) := by
          rw [encontrar_aux_cons, if_pos hc, if_pos h1]
        rw [hstep]
        have hacc2 : ∀ km, (some (i, iv) : Option (Nat × Intervalo)) = some km →
            ponto_coberto_por_intervalo pa km.2 = true ∧
            pontos_cobertos_potencial pontos mask km.2 =
              pontos_cobertos_potencial pontos mask iv ∧
            0 < pontos_cobertos_potencial pontos mask iv ∧ km.1 < i + 1 := by
          intro km hkm
          cases hkm
          exact ⟨hc, rfl, hp, by omega⟩
        obtain ⟨hN, hS⟩ := ih (i + 1) (some (i, iv))
          (pontos_cobertos_potencial pontos mask iv) hacc2 (by intro hx; cases hx)
        constructor
        · intro hr
          exact absurd (hN hr).1 (by intro hx; cases hx)
        · intro km hr
          obtain ⟨hmem, hcov, hbetter, haccb⟩ := hS km hr
          have hbiv : melhor_que pontos mask km (i, iv) := haccb (i, iv) rfl
          refine ⟨?_, hcov, ?_, ?_⟩
          · rcases hmem with hmem | hmem
            · exact Or.inl (by rw [enumera]; exact List.mem_cons_of_mem _ hmem)
            · cases hmem
              exact Or.inl (by rw [enumera]; exact List.mem_cons_self _ _)
          · intro q hq hqcov
            rw [enumera] at hq
            rcases List.mem_cons.mp hq with rfl | hq2
            · exact hbiv
            · exact hbetter q hq2 hqcov
          · intro a ha
            obtain ⟨_, hapot0, _, _⟩ := hacc a ha
            have hapot : pontos_cobertos_potencial pontos mask a.2 = maxPts := hapot0
            have hiv_a : melhor_que pontos mask (i, iv) a := by
              constructor
              · show pontos_cobertos_potencial pontos mask a.2 ≤
                  pontos_cobertos_potencial pontos mask iv
                omega
              · intro heq
                have heq2 : pontos_cobertos_potencial pontos mask a.2 =
                    pontos_cobertos_potencial pontos mask iv := heq
                exact absurd heq2 (by omega)
            exact melhor_que_trans pontos mask km (i, iv) a hbiv hiv_a
      · by_cases h2 : pontos_cobertos_potencial pontos mask iv = maxPts ∧
            0 < pontos_cobertos_potencial pontos mask iv
        · cases melhor with
          | none =>
            exact absurd (hnone rfl) (by omega)
          | some a =>
            obtain ⟨k, ivk⟩ := a
            obtain ⟨hkcov0, hkpot0, hkpos, hki⟩ := hacc (k, ivk) rfl
            have hkcov : ponto_coberto_por_intervalo pa ivk = true := hkcov0
            have hkpot : pontos_cobertos_potencial pontos mask ivk = maxPts := hkpot0
            by_cases h3 : iv.fim - iv.inicio < ivk.fim - ivk.inicio
            · have hstep : encontrar_aux pontos mask pa (iv :: rest) i (some (k, ivk)) maxPts =
                  encontrar_aux pontos mask pa rest (i + 1) (some (i, iv)) maxPts := by
                rw [encontrar_aux_cons, if_pos hc, if_neg h1, if_pos h2]
                show (if iv.fim - iv.inicio < ivk.fim - ivk.inicio then
                    encontrar_aux pontos mask pa rest (i + 1) (some (i, iv)) maxPts
                  else encontrar_aux pontos mask pa rest (i + 1) (some (k, ivk)) maxPts) = _
                rw [if_pos h3]
              rw [hstep]
              have hacc2 : ∀ km, (some (i, iv) : Option (Nat × Intervalo)) = some km →
                  ponto_coberto_por_intervalo pa km.2 = true ∧
                  pontos_cobertos_potencial pontos mask km.2 = maxPts ∧
                  0 < maxPts ∧ km.1 < i + 1 := by
                intro km hkm
                cases hkm
                exact ⟨hc, h2.1, hkpos, by omega⟩
              obtain ⟨hN, hS⟩ := ih (i + 1) (some (i, iv)) maxPts hacc2
                (by intro hx; cases hx)
              constructor
              · intro hr
                exact absurd (hN hr).1 (by intro hx; cases hx)
              · intro km hr
                obtain ⟨hmem, hcov, hbetter, haccb⟩ := hS km hr
                have hbiv : melhor_que pontos mask km (i, iv) := haccb (i, iv) rfl
                have hik : melhor_que pontos mask (i, iv) (k, ivk) := by
                  constructor
                  · show pontos_cobertos_potencial pontos mask ivk ≤
                      pontos_cobertos_potencial pontos mask iv
                    omega
                  · intro _
                    constructor
                    · show tamanho iv ≤ tamanho ivk
                      simp only [tamanho]
                      omega
                    · intro heq
                      have heq2 : tamanho ivk = tamanho iv := heq
                      simp only [tamanho] at heq2
                      exact absurd heq2 (by omega)
                refine ⟨?_, hcov, ?_, ?_⟩
                · rcases hmem with hmem | hmem
                  · exact Or.inl (by rw [enumera]; exact List.mem_cons_of_mem _ hmem)
                  · cases hmem
                    exact Or.inl (by rw [enumera]; exact List.mem_cons_self _ _)
                · intro q hq hqcov
                  rw [enumera] at hq
                  rcases List.mem_cons.mp hq with rfl | hq2
                  · exact hbiv
                  · exact hbetter q hq2 hqcov
                · intro a ha
                  cases ha
                  exact melhor_que_trans pontos mask km (i, iv) (k, ivk) hbiv hik
            · have hstep : encontrar_aux pontos mask pa (iv :: rest) i (some (k, ivk)) maxPts =
                  encontrar_aux pontos mask pa rest (i + 1) (some (k, ivk)) maxPts := by
                rw [encontrar_aux_cons, if_pos hc, if_neg h1, if_pos h2]
                show (if iv.fim - iv.inicio < ivk.fim - ivk.inicio then
                    encontrar_aux pontos mask pa rest (i + 1) (some (i, iv)) maxPts
                  else encontrar_aux pontos mask pa rest (i + 1) (some (k, ivk)) maxPts) = _
                rw [if_neg h3]
              rw [hstep]
              have hacc2 : ∀ km, (some (k, ivk) : Option (Nat × Intervalo)) = some km →
                  ponto_coberto_por_intervalo pa km.2 = true ∧
                  pontos_cobertos_potencial pontos mask km.2 = maxPts ∧
                  0 < maxPts ∧ km.1 < i + 1 := by
                intro km hkm
                cases hkm
                exact ⟨hkcov, hkpot, hkpos, by omega⟩
              obtain ⟨hN, hS⟩ := ih (i + 1) (some (k, ivk)) maxPts hacc2
                (by intro hx; cases hx)
              constructor
              · intro hr
                exact absurd (hN hr).1 (by intro hx; cases hx)
              · intro km hr
                obtain ⟨hmem, hcov, hbetter, haccb⟩ := hS km hr
                have hbkv : melhor_que pontos mask km (k, ivk) := haccb (k, ivk) rfl
                have hkv_iv : melhor_que pontos mask (k, ivk) (i, iv) := by
                  constructor
                  · show pontos_cobertos_potencial pontos mask iv ≤
                      pontos_cobertos_potencial pontos mask ivk
                    omega
                  · intro _
                    constructor
                    · show tamanho ivk ≤ tamanho iv
                      simp only [tamanho]
                      omega
                    · intro _
                      show k ≤ i
                      omega
                refine ⟨?_, hcov, ?_, ?_⟩
                · rcases hmem with hmem | hmem
                  · exact Or.inl (by rw [enumera]; exact List.mem_cons_of_mem _ hmem)
                  · exact Or.inr hmem
                · intro q hq hqcov
                  rw [enumera] at hq
                  rcases List.mem_cons.mp hq with rfl | hq2
                  · exact melhor_que_trans pontos mask km (k, ivk) (i, iv) hbkv hkv_iv
                  · exact hbetter q hq2 hqcov
                · intro a ha
                  cases ha
                  exact hbkv
        · have hle : pontos_cobertos_potencial pontos mask iv ≤ maxPts := Nat.not_lt.mp h1
          have hne2 : pontos_cobertos_potencial pontos mask iv ≠ maxPts :=
            fun he => h2 ⟨he, hp⟩
          have hlt : pontos_cobertos_potencial pontos mask iv < maxPts :=
            lt_of_le_of_ne hle hne2
          cases melhor with
          | none => exact absurd (hnone rfl) (by omega)
          | some a =>
            obtain ⟨k, ivk⟩ := a
            obtain ⟨hkcov0, hkpot0, hkpos, hki⟩ := hacc (k, ivk) rfl
            have hkcov : ponto_coberto_por_intervalo pa ivk = true := hkcov0
            have hkpot : pontos_cobertos_potencial pontos mask ivk = maxPts := hkpot0
            have hstep : encontrar_aux pontos mask pa (iv :: rest) i (some (k, ivk)) maxPts =
                encontrar_aux pontos mask pa rest (i + 1) (some (k, ivk)) maxPts := by
              rw [encontrar_aux_cons, if_pos hc, if_neg h1, if_neg h2]
            rw [hstep]
            have hacc2 : ∀ km, (some (k, ivk) : Option (Nat × Intervalo)) = some km →
                ponto_coberto_por_intervalo pa km.2 = true ∧
                pontos_cobertos_potencial pontos mask km.2 = maxPts ∧
                0 < maxPts ∧ km.1 < i + 1 := by
              intro km hkm
              cases hkm
              exact ⟨hkcov, hkpot, hkpos, by omega⟩
            obtain ⟨hN, hS⟩ := ih (i + 1) (some (k, ivk)) maxPts hacc2
              (by intro hx; cases hx)
            constructor
            · intro hr
              exact absurd (hN hr).1 (by intro hx; cases hx)
            · intro km hr
              obtain ⟨hmem, hcov, hbetter, haccb⟩ := hS km hr
              have hbkv : melhor_que pontos mask km (k, ivk) := haccb (k, ivk) rfl
              have hkv_iv : melhor_que pontos mask (k, ivk) (i, iv) := by
                constructor
                · show pontos_cobertos_potencial pontos mask iv ≤
                    pontos_cobertos_potencial pontos mask ivk
                  omega
                · intro heq
                  have heq2 : pontos_cobertos_potencial pontos mask iv =
                      pontos_cobertos_potencial pontos mask ivk := heq
                  exact absurd heq2 (by omega)
              refine ⟨?_, hcov, ?_, ?_⟩
              · rcases hmem with hmem | hmem
                · exact Or.inl (by rw [enumera]; exact List.mem_cons_of_mem _ hmem)
                · exact Or.inr hmem
              · intro q hq hqcov
                rw [enumera] at hq
                rcases List.mem_cons.mp hq with rfl | hq2
                · exact melhor_que_trans pontos mask km (k, ivk) (i, iv) hbkv hkv_iv
                · exact hbetter q hq2 hqcov
              · intro a ha
                cases ha
                exact hbkv
    · have hstep : encontrar_aux pontos mask pa (iv :: rest) i melhor maxPts =
          encontrar_aux pontos mask pa rest (i + 1) melhor maxPts := by
        rw [encontrar_aux_cons, if_neg hc]
      rw [hstep]
      have hacc2 : ∀ km, melhor = some km →
          ponto_coberto_por_intervalo pa km.2 = true ∧
          pontos_cobertos_potencial pontos mask km.2 = maxPts ∧
          0 < maxPts ∧ km.1 < i + 1 := by
        intro km hkm
        obtain ⟨a, b, c, d⟩ := hacc km hkm
        exact ⟨a, b, c, by omega⟩
      obtain ⟨hN, hS⟩ := ih (i + 1) melhor maxPts hacc2 hnone
      constructor
      · intro hr
        obtain ⟨hm, hall⟩ := hN hr
        refine ⟨hm, ?_⟩
        intro q hq
        rw [enumera] at hq
        rcases List.mem_cons.mp hq with rfl | hq2
        · simpa using hc
        · exact hall q hq2
      · intro km hr
        obtain ⟨hmem, hcov, hbetter, haccb⟩ := hS km hr
        refine ⟨?_, hcov, ?_, haccb⟩
        · rcases hmem with hmem | hmem
          · exact Or.inl (by rw [enumera]; exact List.mem_cons_of_mem _ hmem)
          · exact Or.inr hmem
        · intro q hq hqcov
          rw [enumera] at hq
          rcases List.mem_cons.mp hq with rfl | hq2
          · exact absurd hqcov hc
          · exact hbetter q hq2 hqcov

end EncontrarLemmas

section LoopLemmas

/-- Every interval chosen so far was chosen, at its selection moment, to cover
some point not covered by the earlier choices. -/
def selecao_progressiva (pontos : List Ponto) (sol : List Intervalo) : Prop :=
  ∀ pre x post, sol = pre ++ x :: post →
    ∃ p ∈ pontos, ponto_coberto_por_intervalo p x = true ∧
      (pre.any fun iv => ponto_coberto_por_intervalo p iv) = false

/-- The solution is the image of a duplicate-free list of in-range indices of
the interval array. -/
def indices_selecionados (intervalos : List Intervalo) (idxs : List Nat)
    (sol : List Intervalo) : Prop :=
  idxs.Nodup ∧ (∀ i ∈ idxs, i < intervalos.length) ∧
    sol = idxs.map fun i => intervalos.getD i ⟨0, 0⟩

lemma append_singleton_decomp {α : Type} (sol : List α) (iv x : α) (pre post : List α)
    (h : sol ++ [iv] = pre ++ x :: post) :
    (pre = sol ∧ x = iv ∧ post = []) ∨
      (∃ post2, post = post2 ++ [iv] ∧ sol = pre ++ x :: post2) := by
  rcases List.eq_nil_or_concat post with rfl | ⟨post2, b, rfl⟩
  · have hlen : sol.length = pre.length := by
      have := congrArg List.length h
      simp at this
      omega
    obtain ⟨h1, h2⟩ := List.append_inj h hlen
    exact Or.inl ⟨h1.symm, (by simpa using h2.symm), rfl⟩
  · have h2 : sol ++ [iv] = (pre ++ x :: post2) ++ [b] := by
      rw [h]
      simp
    have hlen : sol.length = (pre ++ x :: post2).length := by
      have := congrArg List.length h2
      simp at this
      simp
      omega
    obtain ⟨h3, h4⟩ := List.append_inj h2 hlen
    have hb : iv = b := by simpa using h4
    exact Or.inr ⟨post2, by rw [hb, List.concat_eq_append], h3⟩

/-- One unfolding step of the greedy loop. -/
lemma resolver_guloso_loop_succ (pontos : List Ponto) (intervalos : List Intervalo)
    (fuel : Nat) (mask : List Bool) (sol : List Intervalo) :
    resolver_guloso_loop pontos intervalos (fuel + 1) mask sol =
      (if todos_pontos_cobertos pontos mask then (mask, sol)
      else
        match obter_proximo_ponto_nao_coberto mask with
        | none => (mask, sol)
        | some indice_ponto =>
          match encontrar_melhor_intervalo pontos mask intervalos indice_ponto with
          | none => (mask, sol)
          | some indice_intervalo =>
            resolver_guloso_loop pontos intervalos fuel
              (marcar_pontos_cobertos pontos mask (intervalos.getD indice_intervalo ⟨0, 0⟩))
              (sol ++ [intervalos.getD indice_intervalo ⟨0, 0⟩])) := rfl

/-- Once an exit condition holds, any amount of fuel leaves the state fixed:
the loop has genuinely terminated. -/
lemma resolver_guloso_loop_fixpoint (pontos : List Ponto) (intervalos : List Intervalo)
    (mask : List Bool) (sol : List Intervalo)
    (h : todos_pontos_cobertos pontos mask = true ∨
      ∃ idx, obter_proximo_ponto_nao_coberto mask = some idx ∧
        encontrar_melhor_intervalo pontos mask intervalos idx = none) :
    ∀ f, resolver_guloso_loop pontos intervalos f mask sol = (mask, sol) := by
  intro f
  cases f with
  | zero => rfl
  | succ f =>
    rw [resolver_guloso_loop_succ]
    by_cases ht : todos_pontos_cobertos pontos mask = true
    · rw [if_pos ht]
    · rw [if_neg ht]
      rcases h with h | ⟨idx, ho, he⟩
      · exact absurd h ht
      · rw [ho]
        show (match encontrar_melhor_intervalo pontos mask intervalos idx with
          | none => (mask, sol)
          | some indice_intervalo =>
            resolver_guloso_loop pontos intervalos f
              (marcar_pontos_cobertos pontos mask (intervalos.getD indice_intervalo ⟨0, 0⟩))
              (sol ++ [intervalos.getD indice_intervalo ⟨0, 0⟩])) = (mask, sol)
        rw [he]

/-- Top-level reading of `encontrar_melhor_intervalo = some k`. -/
lemma encontrar_some_spec (pontos : List Ponto) (mask : List Bool)
    (intervalos : List Intervalo) (idx k : Nat)
    (hz : (pontos.getD idx ⟨0, 0⟩, false) ∈ List.zip pontos mask)
    (h : encontrar_melhor_intervalo pontos mask intervalos idx = some k) :
    k < intervalos.length ∧
    ponto_coberto_por_intervalo (pontos.getD idx ⟨0, 0⟩) (intervalos.getD k ⟨0, 0⟩) = true ∧
    ∀ j, j < intervalos.length →
      ponto_coberto_por_intervalo (pontos.getD idx ⟨0, 0⟩) (intervalos.getD j ⟨0, 0⟩) = true →
      melhor_que pontos mask (k, intervalos.getD k ⟨0, 0⟩) (j, intervalos.getD j ⟨0, 0⟩) := by
  unfold encontrar_melhor_intervalo at h
  rw [Option.map_eq_some'] at h
  obtain ⟨km, hkm, hk1⟩ := h
  obtain ⟨_, hS⟩ := encontrar_aux_spec pontos mask (pontos.getD idx ⟨0, 0⟩) hz
    intervalos 0 none 0 (by intro km2 h2; cases h2) (fun _ => rfl)
  obtain ⟨hmem, hcov, hbetter, _⟩ := hS km hkm
  rcases hmem with hmem | hmem
  · obtain ⟨_, hlt, hget⟩ := mem_enumera (⟨0, 0⟩ : Intervalo) intervalos 0 km hmem
    rw [Nat.sub_zero] at hlt hget
    subst hk1
    refine ⟨hlt, by rw [hget]; exact hcov, ?_⟩
    intro j hj hjcov
    have hq : ((0 + j : Nat), intervalos.getD j ⟨0, 0⟩) ∈ enumera 0 intervalos :=
      enumera_mem (⟨0, 0⟩ : Intervalo) intervalos 0 j hj
    rw [Nat.zero_add] at hq
    have hb := hbetter (j, intervalos.getD j ⟨0, 0⟩) hq hjcov
    rw [hget]
    exact hb
  · cases hmem

/-- Top-level reading of `encontrar_melhor_intervalo = none`. -/
lemma encontrar_none_spec (pontos : List Ponto) (mask : List Bool)
    (intervalos : List Intervalo) (idx : Nat)
    (hz : (pontos.getD idx ⟨0, 0⟩, false) ∈ List.zip pontos mask)
    (h : encontrar_melhor_intervalo pontos mask intervalos idx = none) :
    ∀ j, j < intervalos.length →
      ponto_coberto_por_intervalo (pontos.getD idx ⟨0, 0⟩) (intervalos.getD j ⟨0, 0⟩)
        = false := by
  unfold encontrar_melhor_intervalo at h
  rw [Option.map_eq_none'] at h
  obtain ⟨hN, _⟩ := encontrar_aux_spec pontos mask (pontos.getD idx ⟨0, 0⟩) hz
    intervalos 0 none 0 (by intro km2 h2; cases h2) (fun _ => rfl)
  obtain ⟨_, hall⟩ := hN h
  intro j hj
  have hq : ((0 + j : Nat), intervalos.getD j ⟨0, 0⟩) ∈ enumera 0 intervalos :=
    enumera_mem (⟨0, 0⟩ : Intervalo) intervalos 0 j hj
  rw [Nat.zero_add] at hq
  exact hall (j, intervalos.getD j ⟨0, 0⟩) hq

end LoopLemmas

section LoopInvariant

set_option maxHeartbeats 1000000 in
/-- Main invariant of the greedy loop, starting from a state whose mask is the
one determined by the solution chosen so far: the invariant persists, the
solution only grows, each growth step covers at least one new point, and with
fuel at least the number of still-uncovered points the loop reaches a genuine
exit (all covered, or an anchor that no interval contains). -/
lemma resolver_guloso_loop_spec (pontos : List Ponto) (intervalos : List Intervalo) :
    ∀ (fuel : Nat) (sol : List Intervalo) (idxs : List Nat),
      selecao_progressiva pontos sol →
      indices_selecionados intervalos idxs sol →
      ((resolver_guloso_loop pontos intervalos fuel (mask_de pontos sol) sol).1 =
        mask_de pontos (resolver_guloso_loop pontos intervalos fuel
          (mask_de pontos sol) sol).2 ∧
      (∃ ext, (resolver_guloso_loop pontos intervalos fuel (mask_de pontos sol) sol).2 =
          sol ++ ext ∧
        n_pontos_cobertos (mask_de pontos sol) + ext.length ≤
          n_pontos_cobertos (resolver_guloso_loop pontos intervalos fuel
            (mask_de pontos sol) sol).1) ∧
      selecao_progressiva pontos
        (resolver_guloso_loop pontos intervalos fuel (mask_de pontos sol) sol).2 ∧
      (∃ idxs2, indices_selecionados intervalos idxs2
        (resolver_guloso_loop pontos intervalos fuel (mask_de pontos sol) sol).2) ∧
      (pontos.length ≤ fuel + n_pontos_cobertos (mask_de pontos sol) →
        todos_pontos_cobertos pontos
          (resolver_guloso_loop pontos intervalos fuel (mask_de pontos sol) sol).1 = true ∨
        ∃ idx, obter_proximo_ponto_nao_coberto
            (resolver_guloso_loop pontos intervalos fuel (mask_de pontos sol) sol).1 =
            some idx ∧
          encontrar_melhor_intervalo pontos
            (resolver_guloso_loop pontos intervalos fuel (mask_de pontos sol) sol).1
            intervalos idx = none)) := by
  intro fuel
  induction fuel with
  | zero =>
    intro sol idxs hfresh hidx
    have hr : resolver_guloso_loop pontos intervalos 0 (mask_de pontos sol) sol =
        (mask_de pontos sol, sol) := rfl
    rw [hr]
    refine ⟨rfl, ⟨[], by simp, by simp⟩, hfresh, ⟨idxs, hidx⟩, ?_⟩
    intro hlen
    left
    have hcle : n_pontos_cobertos (mask_de pontos sol) ≤ pontos.length := by
      have := List.count_le_length (l := mask_de pontos sol) (a := true)
      rw [length_mask_de] at this
      exact this
    have heqn : n_pontos_cobertos (mask_de pontos sol) = pontos.length := by omega
    unfold todos_pontos_cobertos
    rw [heqn]
    simp
  | succ fuel ih =>
    intro sol idxs hfresh hidx
    by_cases ht : todos_pontos_cobertos pontos (mask_de pontos sol) = true
    · have hr : resolver_guloso_loop pontos intervalos (fuel + 1) (mask_de pontos sol) sol =
          (mask_de pontos sol, sol) := by
        rw [resolver_guloso_loop_succ, if_pos ht]
      rw [hr]
      exact ⟨rfl, ⟨[], by simp, by simp⟩, hfresh, ⟨idxs, hidx⟩, fun _ => Or.inl ht⟩
    · cases ho : obter_proximo_ponto_nao_coberto (mask_de pontos sol) with
      | none =>
        exfalso
        apply ht
        have hall := obter_none_spec (mask_de pontos sol) ho
        have : (mask_de pontos sol).count true = (mask_de pontos sol).length :=
          (count_true_eq_length_iff (mask_de pontos sol)).mpr hall
        unfold todos_pontos_cobertos n_pontos_cobertos
        rw [this, length_mask_de]
        simp
      | some idx =>
        obtain ⟨hidxm, hbit, _⟩ := obter_some_spec (mask_de pontos sol) idx ho
        have hidxp : idx < pontos.length := by
          rw [length_mask_de] at hidxm
          exact hidxm
        have hz : (pontos.getD idx ⟨0, 0⟩, false) ∈ List.zip pontos (mask_de pontos sol) := by
          have := getD_zip_mem pontos (mask_de pontos sol) idx ⟨0, 0⟩ true hidxp hidxm
          rw [hbit] at this
          exact this
        have hanysol : (sol.any fun iv =>
            ponto_coberto_por_intervalo (pontos.getD idx ⟨0, 0⟩) iv) = false := by
          have hmap := getD_map_lt
            (fun p => sol.any fun iv => ponto_coberto_por_intervalo p iv)
            pontos idx true ⟨0, 0⟩ hidxp
          unfold mask_de at hbit
          rw [hmap] at hbit
          exact hbit
        cases he : encontrar_melhor_intervalo pontos (mask_de pontos sol) intervalos idx with
        | none =>
          have hr : resolver_guloso_loop pontos intervalos (fuel + 1)
              (mask_de pontos sol) sol = (mask_de pontos sol, sol) :=
            resolver_guloso_loop_fixpoint pontos intervalos (mask_de pontos sol) sol
              (Or.inr ⟨idx, ho, he⟩) (fuel + 1)
          rw [hr]
          exact ⟨rfl, ⟨[], by simp, by simp⟩, hfresh, ⟨idxs, hidx⟩,
            fun _ => Or.inr ⟨idx, ho, he⟩⟩
        | some k =>
          obtain ⟨hklt, hkcov, _⟩ :=
            encontrar_some_spec pontos (mask_de pontos sol) intervalos idx k hz he
          have hstep : resolver_guloso_loop pontos intervalos (fuel + 1)
              (mask_de pontos sol) sol =
              resolver_guloso_loop pontos intervalos fuel
                (marcar_pontos_cobertos pontos (mask_de pontos sol)
                  (intervalos.getD k ⟨0, 0⟩))
                (sol ++ [intervalos.getD k ⟨0, 0⟩]) := by
            rw [resolver_guloso_loop_succ, if_neg ht, ho]
            show (match encontrar_melhor_intervalo pontos (mask_de pontos sol)
                intervalos idx with
              | none => (mask_de pontos sol, sol)
              | some indice_intervalo =>
                resolver_guloso_loop pontos intervalos fuel
                  (marcar_pontos_cobertos pontos (mask_de pontos sol)
                    (intervalos.getD indice_intervalo ⟨0, 0⟩))
                  (sol ++ [intervalos.getD indice_intervalo ⟨0, 0⟩])) = _
            rw [he]
          have hmask2 : marcar_pontos_cobertos pontos (mask_de pontos sol)
              (intervalos.getD k ⟨0, 0⟩) =
              mask_de pontos (sol ++ [intervalos.getD k ⟨0, 0⟩]) :=
            marcar_mask_de pontos sol (intervalos.getD k ⟨0, 0⟩)
          rw [hstep, hmask2]
          -- the new solution still satisfies the selection invariant
          have hfresh2 : selecao_progressiva pontos (sol ++ [intervalos.getD k ⟨0, 0⟩]) := by
            intro pre x post hdec
            rcases append_singleton_decomp sol (intervalos.getD k ⟨0, 0⟩) x pre post hdec
              with ⟨rfl, rfl, rfl⟩ | ⟨post2, rfl, hsol⟩
            · exact ⟨pontos.getD idx ⟨0, 0⟩, getD_mem pontos idx ⟨0, 0⟩ hidxp,
                hkcov, hanysol⟩
            · exact hfresh pre x post2 hsol
          -- the new index is fresh
          have hknotin : k ∉ idxs := by
            intro hk
            obtain ⟨_, _, hmapeq⟩ := hidx
            have : intervalos.getD k ⟨0, 0⟩ ∈ sol := by
              rw [hmapeq]
              exact List.mem_map.mpr ⟨k, hk, rfl⟩
            have : (sol.any fun iv =>
                ponto_coberto_por_intervalo (pontos.getD idx ⟨0, 0⟩) iv) = true :=
              List.any_eq_true.mpr ⟨intervalos.getD k ⟨0, 0⟩, this, hkcov⟩
            rw [hanysol] at this
            cases this
          have hidx2 : indices_selecionados intervalos (idxs ++ [k])
              (sol ++ [intervalos.getD k ⟨0, 0⟩]) := by
            obtain ⟨hnd, hbound, hmapeq⟩ := hidx
            refine ⟨?_, ?_, ?_⟩
            · rw [List.nodup_append]
              refine ⟨hnd, List.nodup_singleton k, ?_⟩
              intro a ha hb
              rw [List.mem_singleton] at hb
              subst hb
              exact hknotin ha
            · intro i hi
              rcases List.mem_append.mp hi with hi | hi
              · exact hbound i hi
              · rw [List.mem_singleton] at hi
                subst hi
                exact hklt
            · rw [List.map_append, ← hmapeq]
              rfl
          have hcount : n_pontos_cobertos (mask_de pontos sol) <
              n_pontos_cobertos (mask_de pontos (sol ++ [intervalos.getD k ⟨0, 0⟩])) := by
            rw [← hmask2]
            exact count_marcar_lt pontos (intervalos.getD k ⟨0, 0⟩) (mask_de pontos sol)
              idx (by rw [length_mask_de]) hidxm hbit hkcov
          obtain ⟨hmaskr, ⟨ext, hext, hcnt⟩, hfreshr, hidxr, hpost⟩ :=
            ih (sol ++ [intervalos.getD k ⟨0, 0⟩]) (idxs ++ [k]) hfresh2 hidx2
          refine ⟨hmaskr, ⟨intervalos.getD k ⟨0, 0⟩ :: ext, ?_, ?_⟩, hfreshr, hidxr, ?_⟩
          · rw [hext]
            simp
          · simp only [List.length_cons]
            omega
          · intro hlen
            exact hpost (by omega)

end LoopInvariant

section ResolverGulosoSpec

/-- Full coverage of the determined mask is exactly the cover property of the
chosen solution. -/
lemma todos_mask_de_iff (pontos : List Ponto) (sol : List Intervalo) :
    todos_pontos_cobertos pontos (mask_de pontos sol) = true ↔
      cobre_todos sol pontos = true := by
  unfold todos_pontos_cobertos n_pontos_cobertos
  rw [beq_iff_eq, ← length_mask_de pontos sol, count_true_eq_length_iff]
  unfold mask_de cobre_todos
  rw [List.all_eq_true]
  constructor
  · intro h p hp
    exact h _ (List.mem_map.mpr ⟨p, hp, rfl⟩)
  · intro h b hb
    obtain ⟨p, hp, rfl⟩ := List.mem_map.mp hb
    exact h p hp

lemma count_false_map (pontos : List Ponto) :
    (List.map (fun _ => false) pontos).count true = 0 := by
  induction pontos with
  | nil => simp
  | cons p ps ih => simpa [List.count_cons] using ih

/-- Bundle of facts about a finished greedy solve: the final mask is the one
determined by the returned solution; every member was selected to cover a new
point; the members sit at pairwise-distinct in-range indices; the solution has
at most one interval per point; and the loop ended at a genuine exit. -/
lemma resolver_guloso_spec (pontos : List Ponto) (intervalos : List Intervalo) :
    (resolver_guloso pontos intervalos).pontos_cobertos =
      mask_de pontos (resolver_guloso pontos intervalos).solucao ∧
    selecao_progressiva pontos (resolver_guloso pontos intervalos).solucao ∧
    (∃ idxs, indices_selecionados intervalos idxs
      (resolver_guloso pontos intervalos).solucao) ∧
    (resolver_guloso pontos intervalos).solucao.length ≤ pontos.length ∧
    (todos_pontos_cobertos pontos (resolver_guloso pontos intervalos).pontos_cobertos
        = true ∨
      ∃ idx, obter_proximo_ponto_nao_coberto
          (resolver_guloso pontos intervalos).pontos_cobertos = some idx ∧
        encontrar_melhor_intervalo pontos
          (resolver_guloso pontos intervalos).pontos_cobertos intervalos idx = none) := by
  have hfresh0 : selecao_progressiva pontos [] := by
    intro pre x post h
    exact absurd h.symm (List.append_ne_nil_of_right_ne_nil pre (by simp))
  have hidx0 : indices_selecionados intervalos [] [] := by
    exact ⟨List.nodup_nil, by simp, by simp⟩
  have hspec := resolver_guloso_loop_spec pontos intervalos pontos.length [] []
    hfresh0 hidx0
  have hinit : (pontos.map fun _ => false) = mask_de pontos [] := (mask_de_nil pontos).symm
  have hres : resolver_guloso pontos intervalos =
      { solucao := (resolver_guloso_loop pontos intervalos pontos.length
          (mask_de pontos []) []).2
        pontos_cobertos := (resolver_guloso_loop pontos intervalos pontos.length
          (mask_de pontos []) []).1
        n_pontos_cobertos := n_pontos_cobertos
          (resolver_guloso_loop pontos intervalos pontos.length (mask_de pontos []) []).1
        n_solucao := (resolver_guloso_loop pontos intervalos pontos.length
          (mask_de pontos []) []).2.length
        qualidade :=
          if intervalos.length > 0 then
            1 - ((resolver_guloso_loop pontos intervalos pontos.length
              (mask_de pontos []) []).2.length : ℚ) / (intervalos.length : ℚ)
          else 0 } := by
    unfold resolver_guloso
    rw [hinit]
  obtain ⟨hmask, ⟨ext, hext, hcnt⟩, hfreshr, hidxr, hpost⟩ := hspec
  rw [hres]
  refine ⟨hmask, hfreshr, hidxr, ?_, ?_⟩
  · have hc0 : n_pontos_cobertos (mask_de pontos []) = 0 := by
      unfold n_pontos_cobertos
      rw [mask_de_nil]
      exact count_false_map pontos
    have hlenr : (resolver_guloso_loop pontos intervalos pontos.length
        (mask_de pontos []) []).2.length = ext.length := by
      rw [hext]
      simp
    have hble : n_pontos_cobertos (resolver_guloso_loop pontos intervalos pontos.length
        (mask_de pontos []) []).1 ≤ pontos.length := by
      unfold n_pontos_cobertos
      rw [hmask]
      have := List.count_le_length
        (l := mask_de pontos (resolver_guloso_loop pontos intervalos pontos.length
          (mask_de pontos []) []).2) (a := true)
      rw [length_mask_de] at this
      exact this
    rw [hlenr]
    omega
  · exact hpost (by omega)

/-- When every point is contained in some interval of the pool, the greedy
solve ends with all points covered, and its returned solution is a cover. -/
lemma resolver_guloso_cobre (pontos : List Ponto) (intervalos : List Intervalo)
    (hall : ∀ p ∈ pontos, ∃ iv ∈ intervalos, ponto_coberto_por_intervalo p iv = true) :
    todos_pontos_cobertos pontos (resolver_guloso pontos intervalos).pontos_cobertos
        = true ∧
    cobre_todos (resolver_guloso pontos intervalos).solucao pontos = true := by
  obtain ⟨hmask, _, _, _, hpost⟩ := resolver_guloso_spec pontos intervalos
  have htodos : todos_pontos_cobertos pontos
      (resolver_guloso pontos intervalos).pontos_cobertos = true := by
    rcases hpost with h | ⟨idx, ho, he⟩
    · exact h
    · exfalso
      obtain ⟨hidxm, hbit, _⟩ := obter_some_spec _ idx ho
      have hlenm : (resolver_guloso pontos intervalos).pontos_cobertos.length
          = pontos.length := by
        rw [hmask, length_mask_de]
      have hidxp : idx < pontos.length := by rw [← hlenm]; exact hidxm
      have hz : (pontos.getD idx ⟨0, 0⟩, false) ∈
          List.zip pontos (resolver_guloso pontos intervalos).pontos_cobertos := by
        have := getD_zip_mem pontos
          (resolver_guloso pontos intervalos).pontos_cobertos idx ⟨0, 0⟩ true hidxp hidxm
        rw [hbit] at this
        exact this
      have hnone := encontrar_none_spec pontos
        (resolver_guloso pontos intervalos).pontos_cobertos intervalos idx hz he
      obtain ⟨iv, hivmem, hivcov⟩ := hall (pontos.getD idx ⟨0, 0⟩)
        (getD_mem pontos idx ⟨0, 0⟩ hidxp)
      obtain ⟨⟨j, hj⟩, hjget⟩ := List.mem_iff_get.mp hivmem
      have hgetD : intervalos.getD j ⟨0, 0⟩ = iv := by
        rw [List.getD_eq_getElem _ _ hj]
        rw [← hjget]
        rfl
      have := hnone j hj
      rw [hgetD, hivcov] at this
      cases this
  refine ⟨htodos, ?_⟩
  rw [hmask] at htodos
  exact (todos_mask_de_iff pontos (resolver_guloso pontos intervalos).solucao).mp htodos

end ResolverGulosoSpec

section ClaimHelpers

lemma cobre_nil_false (pontos : List Ponto) (hne : pontos ≠ []) :
    cobre_todos [] pontos = false := by
  cases pontos with
  | nil => exact absurd rfl hne
  | cons p ps => simp [cobre_todos]

lemma cobre_todos_congr (s1 s2 : List Intervalo) (pontos : List Ponto)
    (h : ∀ iv, iv ∈ s1 ↔ iv ∈ s2) :
    cobre_todos s1 pontos = cobre_todos s2 pontos := by
  unfold cobre_todos
  have hany : (fun p => s1.any fun iv => ponto_coberto_por_intervalo p iv) =
      (fun p => s2.any fun iv => ponto_coberto_por_intervalo p iv) := by
    funext p
    by_cases hx : (s1.any fun iv => ponto_coberto_por_intervalo p iv) = true
    · obtain ⟨iv, hm, hc⟩ := List.any_eq_true.mp hx
      rw [hx]
      exact (List.any_eq_true.mpr ⟨iv, (h iv).mp hm, hc⟩).symm
    · by_cases hy : (s2.any fun iv => ponto_coberto_por_intervalo p iv) = true
      · obtain ⟨iv, hm, hc⟩ := List.any_eq_true.mp hy
        exact absurd (List.any_eq_true.mpr ⟨iv, (h iv).mpr hm, hc⟩) hx
      · rw [Bool.not_eq_true] at hx hy
        rw [hx, hy]
  rw [hany]

lemma cobre_todos_mem (sol : List Intervalo) (pontos : List Ponto) (p : Ponto)
    (hc : cobre_todos sol pontos = true) (hp : p ∈ pontos) :
    ∃ iv ∈ sol, ponto_coberto_por_intervalo p iv = true := by
  unfold cobre_todos at hc
  rw [List.all_eq_true] at hc
  exact List.any_eq_true.mp (hc p hp)

lemma count_lt_of_false (mask : List Bool) :
    ∀ idx, idx < mask.length → mask.getD idx true = false →
      mask.count true < mask.length := by
  induction mask with
  | nil =>
    intro idx h _
    simp at h
  | cons b bs ih =>
    intro idx hidx hbit
    cases idx with
    | zero =>
      simp only [List.getD_cons_zero] at hbit
      subst hbit
      have hle := List.count_le_length (l := bs) (a := true)
      have hc : (false :: bs).count true = bs.count true := by simp [List.count_cons]
      rw [hc]
      simp only [List.length_cons]
      omega
    | succ idx =>
      simp only [List.getD_cons_succ] at hbit
      have ht := ih idx (by simpa using hidx) hbit
      cases b with
      | true =>
        rw [List.count_cons_self]
        simp only [List.length_cons]
        omega
      | false =>
        have hc : (false :: bs).count true = bs.count true := by simp [List.count_cons]
        rw [hc]
        simp only [List.length_cons]
        omega

/-- For the exact solver running from a fresh state: description of the
result in both the feasible and the infeasible case. -/
lemma backtracking_otimo (pontos : List Ponto) (intervalos : List Intervalo) :
    ((∃ m, List.Sublist m intervalos ∧ cobre_todos m pontos = true) → pontos ≠ [] →
      intervalos.length < INT_MAX →
      cobre_todos (backtracking_recursivo pontos intervalos
        inicializar_problema_backtracking).melhor_solucao pontos = true ∧
      List.Sublist (backtracking_recursivo pontos intervalos
        inicializar_problema_backtracking).melhor_solucao intervalos ∧
      (backtracking_recursivo pontos intervalos
        inicializar_problema_backtracking).melhor_solucao.length =
        (backtracking_recursivo pontos intervalos
          inicializar_problema_backtracking).n_melhor_solucao ∧
      (backtracking_recursivo pontos intervalos
        inicializar_problema_backtracking).n_melhor_solucao < INT_MAX ∧
      (∀ m, List.Sublist m intervalos → cobre_todos m pontos = true →
        (backtracking_recursivo pontos intervalos
          inicializar_problema_backtracking).n_melhor_solucao ≤ m.length)) ∧
    ((¬ ∃ m, List.Sublist m intervalos ∧ cobre_todos m pontos = true) →
      (backtracking_recursivo pontos intervalos
        inicializar_problema_backtracking).n_melhor_solucao = INT_MAX ∧
      (backtracking_recursivo pontos intervalos
        inicializar_problema_backtracking).melhor_solucao = []) := by
  constructor
  · rintro ⟨m0, hm0sub, hm0cov⟩ hne hsz
    have hm0ne : m0 ≠ [] := by
      intro h
      rw [h, cobre_nil_false pontos hne] at hm0cov
      cases hm0cov
    have hcomp := btRec_complete pontos intervalos inicializar_problema_backtracking
      m0 hm0sub hm0ne (by simpa using hm0cov)
    have hm0len : m0.length ≤ intervalos.length := hm0sub.length_le
    have hlt : (backtracking_recursivo pontos intervalos
        inicializar_problema_backtracking).n_melhor_solucao < INT_MAX := by
      have : (inicializar_problema_backtracking.solucao_atual.length) = 0 := rfl
      omega
    rcases btRec_sound pontos intervalos inicializar_problema_backtracking with
      ⟨_, hn⟩ | ⟨m, _, hsub, hmel, hcov, hlen2, _⟩
    · exfalso
      rw [hn] at hlt
      exact absurd hlt (by unfold inicializar_problema_backtracking; simp)
    · refine ⟨hcov, ?_, hlen2, hlt, ?_⟩
      · rw [hmel]
        show List.Sublist ([] ++ m) intervalos
        simpa using hsub
      · intro m2 hsub2 hcov2
        have hm2ne : m2 ≠ [] := by
          intro h
          rw [h, cobre_nil_false pontos hne] at hcov2
          cases hcov2
        have hc2 := btRec_complete pontos intervalos inicializar_problema_backtracking
          m2 hsub2 hm2ne (by simpa using hcov2)
        have h0 : inicializar_problema_backtracking.solucao_atual.length = 0 := rfl
        omega
  · intro hnone
    rcases btRec_sound pontos intervalos inicializar_problema_backtracking with
      ⟨hm, hn⟩ | ⟨m, _, hsub, hmel, hcov, _, _⟩
    · exact ⟨hn, hm⟩
    · exfalso
      apply hnone
      refine ⟨(backtracking_recursivo pontos intervalos
        inicializar_problema_backtracking).melhor_solucao, ?_, hcov⟩
      rw [hmel]
      show List.Sublist ([] ++ m) intervalos
      simpa using hsub

/-- Every member of a minimum-size cover covers a point missed by the earlier
members. -/
lemma backtracking_selecao (pontos : List Ponto) (intervalos : List Intervalo)
    (hne : pontos ≠ [])
    (hfound : (backtracking_recursivo pontos intervalos
      inicializar_problema_backtracking).n_melhor_solucao ≠ INT_MAX) :
    cobre_todos (backtracking_recursivo pontos intervalos
      inicializar_problema_backtracking).melhor_solucao pontos = true ∧
    selecao_progressiva pontos (backtracking_recursivo pontos intervalos
      inicializar_problema_backtracking).melhor_solucao := by
  rcases btRec_sound pontos intervalos inicializar_problema_backtracking with
    ⟨_, hn⟩ | ⟨m, _, hsub, hmel, hcov, hlen2, _⟩
  · exact absurd hn hfound
  · refine ⟨hcov, ?_⟩
    intro pre x post hdec
    by_contra hnofresh
    push_neg at hnofresh
    -- every point of x is already covered by the earlier members
    have hred : ∀ p ∈ pontos, ponto_coberto_por_intervalo p x = true →
        (pre.any fun iv => ponto_coberto_por_intervalo p iv) = true := by
      intro p hp hpx
      have := hnofresh p hp
      by_cases hb : (pre.any fun iv => ponto_coberto_por_intervalo p iv) = true
      · exact hb
      · rw [Bool.not_eq_true] at hb
        exact absurd hb (this hpx)
    -- the cover without x is still a cover
    have hcov2 : cobre_todos (pre ++ post) pontos = true := by
      unfold cobre_todos
      rw [List.all_eq_true]
      intro p hp
      have hcp := cobre_todos_mem _ pontos p hcov hp
      rw [hdec] at hcp
      obtain ⟨iv, hivm, hivc⟩ := hcp
      rcases List.mem_append.mp hivm with hivm | hivm
      · exact List.any_eq_true.mpr ⟨iv, List.mem_append.mpr (Or.inl hivm), hivc⟩
      · rcases List.mem_cons.mp hivm with rfl | hivm
        · obtain ⟨iv2, hiv2m, hiv2c⟩ := List.any_eq_true.mp (hred p hp hivc)
          exact List.any_eq_true.mpr ⟨iv2, List.mem_append.mpr (Or.inl hiv2m), hiv2c⟩
        · exact List.any_eq_true.mpr ⟨iv, List.mem_append.mpr (Or.inr hivm), hivc⟩
    -- it is a sublist of the pool and strictly shorter: contradicts completeness
    have hmelsub : List.Sublist (pre ++ x :: post) intervalos := by
      rw [← hdec, hmel]
      show List.Sublist ([] ++ m) intervalos
      simpa using hsub
    have hsubfull : List.Sublist (pre ++ post) intervalos :=
      List.Sublist.trans
        (List.Sublist.append_left (List.sublist_cons_self x post) pre) hmelsub
    have hppne : (pre ++ post) ≠ [] ∨ pontos = [] := by
      by_cases h : (pre ++ post) = []
      · right
        by_contra hne2
        rw [h, cobre_nil_false pontos hne2] at hcov2
        cases hcov2
      · exact Or.inl h
    rcases hppne with hppne | hppne
    · have hc := btRec_complete pontos intervalos inicializar_problema_backtracking
        (pre ++ post) hsubfull hppne (by simpa using hcov2)
      have hmlen : (backtracking_recursivo pontos intervalos
          inicializar_problema_backtracking).melhor_solucao.length =
          pre.length + post.length + 1 := by
        rw [hdec]
        simp [Nat.add_comm, Nat.add_assoc, Nat.add_left_comm]
      have h0 : inicializar_problema_backtracking.solucao_atual.length = 0 := rfl
      have hppl : (pre ++ post).length = pre.length + post.length := by simp
      rw [h0, hppl] at hc
      omega
    · exact absurd hppne hne

end ClaimHelpers

/-! ## Claim theorems -/

/-- C1: for every well-formed instance (non-empty points, intervals with
start ≤ end, sorted descending by length with ties ascending by start, fewer
than INT_MAX intervals), after `resolver_backtracking` runs on a freshly
initialized problem: if some subset (sublist) of the interval pool covers
every point, then the recorded `melhor_solucao` is a complete cover, a subset
of the pool, its stored size `n_melhor_solucao` is its length, and no covering
subset is smaller; if no subset covers every point, `n_melhor_solucao` remains
the INT_MAX sentinel. -/
theorem claim_C1 (pontos : List Ponto) (intervalos : List Intervalo) (r : BTState)
    (hne : pontos ≠ [])
    (hwf : ∀ iv ∈ intervalos, iv.inicio ≤ iv.fim)
    (hsorted : intervalos.Pairwise fun a b => comparar_intervalos_backtracking a b ≤ 0)
    (hsz : intervalos.length < INT_MAX)
    (hr : r = (resolver_backtracking pontos intervalos
      inicializar_problema_backtracking).1) :
    ((∃ m, List.Sublist m intervalos ∧ cobre_todos m pontos = true) →
      cobre_todos r.melhor_solucao pontos = true ∧
      List.Sublist r.melhor_solucao intervalos ∧
      r.melhor_solucao.length = r.n_melhor_solucao ∧
      r.n_melhor_solucao < INT_MAX ∧
      (∀ m, List.Sublist m intervalos → cobre_todos m pontos = true →
        r.n_melhor_solucao ≤ m.length)) ∧
    ((¬ ∃ m, List.Sublist m intervalos ∧ cobre_todos m pontos = true) →
      r.n_melhor_solucao = INT_MAX) := by
  subst hr
  have heq : (resolver_backtracking pontos intervalos
      inicializar_problema_backtracking).1 =
      backtracking_recursivo pontos intervalos inicializar_problema_backtracking := rfl
  rw [heq]
  obtain ⟨hfeas, hinfeas⟩ := backtracking_otimo pontos intervalos
  exact ⟨fun hex => hfeas hex hne hsz, fun hnex => (hinfeas hnex).1⟩

/-- Witness for C1 at a concrete instance with a cover of minimum size 2. -/
theorem claim_C1_witness :
    ((([⟨1, 5⟩, ⟨2, 15⟩] : List Ponto) ≠ [] ∧
      (∀ iv ∈ ([⟨0, 10⟩, ⟨12, 20⟩] : List Intervalo), iv.inicio ≤ iv.fim) ∧
      ([⟨0, 10⟩, ⟨12, 20⟩] : List Intervalo).Pairwise
        (fun a b => comparar_intervalos_backtracking a b ≤ 0) ∧
      ([⟨0, 10⟩, ⟨12, 20⟩] : List Intervalo).length < INT_MAX) ∧
    (((∃ m, List.Sublist m ([⟨0, 10⟩, ⟨12, 20⟩] : List Intervalo) ∧
        cobre_todos m [⟨1, 5⟩, ⟨2, 15⟩] = true) →
      cobre_todos (resolver_backtracking [⟨1, 5⟩, ⟨2, 15⟩] [⟨0, 10⟩, ⟨12, 20⟩]
        inicializar_problema_backtracking).1.melhor_solucao [⟨1, 5⟩, ⟨2, 15⟩] = true ∧
      List.Sublist (resolver_backtracking [⟨1, 5⟩, ⟨2, 15⟩] [⟨0, 10⟩, ⟨12, 20⟩]
        inicializar_problema_backtracking).1.melhor_solucao [⟨0, 10⟩, ⟨12, 20⟩] ∧
      (resolver_backtracking [⟨1, 5⟩, ⟨2, 15⟩] [⟨0, 10⟩, ⟨12, 20⟩]
        inicializar_problema_backtracking).1.melhor_solucao.length =
        (resolver_backtracking [⟨1, 5⟩, ⟨2, 15⟩] [⟨0, 10⟩, ⟨12, 20⟩]
          inicializar_problema_backtracking).1.n_melhor_solucao ∧
      (resolver_backtracking [⟨1, 5⟩, ⟨2, 15⟩] [⟨0, 10⟩, ⟨12, 20⟩]
        inicializar_problema_backtracking).1.n_melhor_solucao < INT_MAX ∧
      (∀ m, List.Sublist m ([⟨0, 10⟩, ⟨12, 20⟩] : List Intervalo) →
        cobre_todos m [⟨1, 5⟩, ⟨2, 15⟩] = true →
        (resolver_backtracking [⟨1, 5⟩, ⟨2, 15⟩] [⟨0, 10⟩, ⟨12, 20⟩]
          inicializar_problema_backtracking).1.n_melhor_solucao ≤ m.length)) ∧
    ((¬ ∃ m, List.Sublist m ([⟨0, 10⟩, ⟨12, 20⟩] : List Intervalo) ∧
        cobre_todos m [⟨1, 5⟩, ⟨2, 15⟩] = true) →
      (resolver_backtracking [⟨1, 5⟩, ⟨2, 15⟩] [⟨0, 10⟩, ⟨12, 20⟩]
        inicializar_problema_backtracking).1.n_melhor_solucao = INT_MAX))) :=
  ⟨⟨by decide, by decide, by decide, by decide⟩,
    claim_C1 [⟨1, 5⟩, ⟨2, 15⟩] [⟨0, 10⟩, ⟨12, 20⟩] _
      (by decide) (by decide) (by decide) (by decide) rfl⟩

/-- C7: with a non-empty interval pool, and quality computed in exact rational
arithmetic, the reported quality of the greedy solve equals
`1 - n_solucao / |intervalos|`; for the exact solver the same formula relates
the reported metric fields whenever a cover was found. -/
theorem claim_C7 (pontos : List Ponto) (intervalos : List Intervalo)
    (hpool : intervalos ≠ []) :
    (resolver_guloso pontos intervalos).qualidade =
      1 - ((resolver_guloso pontos intervalos).n_solucao : ℚ) / (intervalos.length : ℚ) ∧
    ((resolver_backtracking pontos intervalos
        inicializar_problema_backtracking).1.n_melhor_solucao ≠ INT_MAX →
      (resolver_backtracking pontos intervalos
        inicializar_problema_backtracking).2.qualidade =
        1 - ((resolver_backtracking pontos intervalos
          inicializar_problema_backtracking).2.n_solucao : ℚ) / (intervalos.length : ℚ)) := by
  have hlen : intervalos.length > 0 := List.length_pos.mpr hpool
  constructor
  · unfold resolver_guloso
    dsimp only
    rw [if_pos hlen]
  · intro _
    unfold resolver_backtracking
    dsimp only
    rw [if_pos hlen]

/-- Witness for C7 at a concrete instance. -/
theorem claim_C7_witness :
    (([⟨0, 10⟩] : List Intervalo) ≠ []) ∧
    ((resolver_guloso [⟨1, 5⟩] [⟨0, 10⟩]).qualidade =
      1 - ((resolver_guloso [⟨1, 5⟩] [⟨0, 10⟩]).n_solucao : ℚ) /
        (([⟨0, 10⟩] : List Intervalo).length : ℚ) ∧
    ((resolver_backtracking [⟨1, 5⟩] [⟨0, 10⟩]
        inicializar_problema_backtracking).1.n_melhor_solucao ≠ INT_MAX →
      (resolver_backtracking [⟨1, 5⟩] [⟨0, 10⟩]
        inicializar_problema_backtracking).2.qualidade =
        1 - ((resolver_backtracking [⟨1, 5⟩] [⟨0, 10⟩]
          inicializar_problema_backtracking).2.n_solucao : ℚ) /
          (([⟨0, 10⟩] : List Intervalo).length : ℚ))) :=
  ⟨by decide, claim_C7 [⟨1, 5⟩] [⟨0, 10⟩] (by decide)⟩

/-- C8: both copies of the coverage predicate hold exactly when
`start ≤ position ≤ end` (closed-interval semantics, boundaries covered); in
particular a point at position 12 is covered by the interval [0, 12]. -/
theorem claim_C8 : ∀ (p : Ponto) (iv : Intervalo),
    (ponto_coberto_por_intervalo p iv = true ↔
      iv.inicio ≤ p.posicao ∧ p.posicao ≤ iv.fim) ∧
    (ponto_coberto_por_intervalo_backtracking p iv = true ↔
      iv.inicio ≤ p.posicao ∧ p.posicao ≤ iv.fim) ∧
    ponto_coberto_por_intervalo ⟨9, 12⟩ ⟨0, 12⟩ = true := by
  intro p iv
  refine ⟨?_, ?_, by decide⟩
  · unfold ponto_coberto_por_intervalo
    simp
  · unfold ponto_coberto_por_intervalo_backtracking
    simp

/-- C9: every recursive call of the search restores the partial solution (its
live prefix, hence `n_solucao_atual` and the entries below it, is exactly what
it was before the call), and after the top-level solve the partial solution is
empty. -/
theorem claim_C9 (pontos : List Ponto) (intervalos : List Intervalo) (s : BTState) :
    (∀ rest s2, (backtracking_recursivo pontos rest s2).solucao_atual =
      s2.solucao_atual) ∧
    (resolver_backtracking pontos intervalos s).1.solucao_atual = [] := by
  refine ⟨fun rest s2 => btRec_sol pontos rest s2, ?_⟩
  show (backtracking_recursivo pontos intervalos
    { s with solucao_atual := [], nos_visitados := 0 }).solucao_atual = []
  rw [btRec_sol]

/-- C10: the greedy cover is the image of a duplicate-free list of in-range
indices of the sorted interval array (no index is selected twice), hence its
size is at most the pool size and at most the number of points, and the solve
loop has genuinely terminated: re-running it on the final state with any
amount of fuel changes nothing. -/
theorem claim_C10 (pontos : List Ponto) (intervalos : List Intervalo) :
    (∃ idxs, indices_selecionados intervalos idxs
      (resolver_guloso pontos intervalos).solucao) ∧
    (resolver_guloso pontos intervalos).solucao.length ≤ intervalos.length ∧
    (resolver_guloso pontos intervalos).solucao.length ≤ pontos.length ∧
    (∀ f, resolver_guloso_loop pontos intervalos f
        (resolver_guloso pontos intervalos).pontos_cobertos
        (resolver_guloso pontos intervalos).solucao =
      ((resolver_guloso pontos intervalos).pontos_cobertos,
        (resolver_guloso pontos intervalos).solucao)) := by
  obtain ⟨hmask, _, ⟨idxs, hnd, hbound, hmapeq⟩, hlenp, hpost⟩ :=
    resolver_guloso_spec pontos intervalos
  refine ⟨⟨idxs, hnd, hbound, hmapeq⟩, ?_, hlenp, ?_⟩
  · have hsubr : idxs ⊆ List.range intervalos.length := by
      intro i hi
      exact List.mem_range.mpr (hbound i hi)
    have hle := (List.subperm_of_subset hnd hsubr).length_le
    rw [List.length_range] at hle
    rw [hmapeq, List.length_map]
    exact hle
  · intro f
    exact resolver_guloso_loop_fixpoint pontos intervalos _ _ hpost f

/-- C2: for every instance (non-empty points) that admits a complete cover,
with each solver given its own correctly sorted view of the same interval
pool, the exact solution size is at most the greedy solution size. -/
theorem claim_C2 (pontos : List Ponto) (intervalos_bt intervalos_g : List Intervalo)
    (hne : pontos ≠ [])
    (hperm : List.Perm intervalos_bt intervalos_g)
    (hsortb : intervalos_bt.Pairwise
      fun a b => comparar_intervalos_backtracking a b ≤ 0)
    (hsortg : intervalos_g.Pairwise fun a b => comparar_intervalos a b ≤ 0)
    (hcov : ∃ m, List.Sublist m intervalos_bt ∧ cobre_todos m pontos = true) :
    (resolver_backtracking pontos intervalos_bt
      inicializar_problema_backtracking).2.n_solucao ≤
      (resolver_guloso pontos intervalos_g).n_solucao := by
  obtain ⟨m0, hm0sub, hm0cov⟩ := hcov
  have hall : ∀ p ∈ pontos, ∃ iv ∈ intervalos_g,
      ponto_coberto_por_intervalo p iv = true := by
    intro p hp
    obtain ⟨iv, hivm, hivc⟩ := cobre_todos_mem m0 pontos p hm0cov hp
    exact ⟨iv, hperm.mem_iff.mp (hm0sub.subset hivm), hivc⟩
  obtain ⟨htodos, hcovsol⟩ := resolver_guloso_cobre pontos intervalos_g hall
  obtain ⟨_, _, ⟨idxs, hnd, hbound, hmapeq⟩, _, _⟩ :=
    resolver_guloso_spec pontos intervalos_g
  have hsolsub : (resolver_guloso pontos intervalos_g).solucao ⊆ intervalos_g := by
    intro iv hiv
    rw [hmapeq] at hiv
    obtain ⟨i, hi, rfl⟩ := List.mem_map.mp hiv
    exact getD_mem intervalos_g i ⟨0, 0⟩ (hbound i hi)
  have hdsub : (resolver_guloso pontos intervalos_g).solucao.dedup ⊆ intervalos_bt := by
    intro iv hiv
    exact hperm.mem_iff.mpr (hsolsub (List.mem_dedup.mp hiv))
  obtain ⟨l2, hl2perm, hl2sub⟩ := List.subperm_of_subset
    (List.nodup_dedup (resolver_guloso pontos intervalos_g).solucao) hdsub
  have hl2cov : cobre_todos l2 pontos = true := by
    rw [cobre_todos_congr l2 (resolver_guloso pontos intervalos_g).solucao pontos
      (fun iv => by rw [hl2perm.mem_iff, List.mem_dedup])]
    exact hcovsol
  have hl2ne : l2 ≠ [] := by
    intro h
    rw [h, cobre_nil_false pontos hne] at hl2cov
    cases hl2cov
  have hc := btRec_complete pontos intervalos_bt inicializar_problema_backtracking
    l2 hl2sub hl2ne (by simpa using hl2cov)
  have h0 : inicializar_problema_backtracking.solucao_atual.length = 0 := rfl
  have hl2len : l2.length = (resolver_guloso pontos intervalos_g).solucao.dedup.length :=
    hl2perm.length_eq
  have hdlen : (resolver_guloso pontos intervalos_g).solucao.dedup.length ≤
      (resolver_guloso pontos intervalos_g).solucao.length :=
    (List.dedup_sublist (resolver_guloso pontos intervalos_g).solucao).length_le
  have hns : (resolver_backtracking pontos intervalos_bt
      inicializar_problema_backtracking).2.n_solucao =
      (backtracking_recursivo pontos intervalos_bt
        inicializar_problema_backtracking).n_melhor_solucao := rfl
  have hgs : (resolver_guloso pontos intervalos_g).n_solucao =
      (resolver_guloso pontos intervalos_g).solucao.length := rfl
  rw [hns, hgs]
  omega

/-- Witness for C2 at a concrete instance whose pool is sorted for both
solvers simultaneously. -/
theorem claim_C2_witness :
    ((([⟨1, 5⟩, ⟨2, 15⟩] : List Ponto) ≠ [] ∧
      List.Perm ([⟨0, 10⟩, ⟨12, 20⟩] : List Intervalo) [⟨0, 10⟩, ⟨12, 20⟩] ∧
      ([⟨0, 10⟩, ⟨12, 20⟩] : List Intervalo).Pairwise
        (fun a b => comparar_intervalos_backtracking a b ≤ 0) ∧
      ([⟨0, 10⟩, ⟨12, 20⟩] : List Intervalo).Pairwise
        (fun a b => comparar_intervalos a b ≤ 0) ∧
      (∃ m, List.Sublist m ([⟨0, 10⟩, ⟨12, 20⟩] : List Intervalo) ∧
        cobre_todos m [⟨1, 5⟩, ⟨2, 15⟩] = true)) ∧
    (resolver_backtracking [⟨1, 5⟩, ⟨2, 15⟩] [⟨0, 10⟩, ⟨12, 20⟩]
      inicializar_problema_backtracking).2.n_solucao ≤
      (resolver_guloso [⟨1, 5⟩, ⟨2, 15⟩] [⟨0, 10⟩, ⟨12, 20⟩]).n_solucao) :=
  ⟨⟨by decide, List.Perm.refl _, by decide, by decide,
    ⟨[⟨0, 10⟩, ⟨12, 20⟩], List.Sublist.refl _, by decide⟩⟩,
   claim_C2 [⟨1, 5⟩, ⟨2, 15⟩] [⟨0, 10⟩, ⟨12, 20⟩] [⟨0, 10⟩, ⟨12, 20⟩]
     (by decide) (List.Perm.refl _) (by decide) (by decide)
     ⟨[⟨0, 10⟩, ⟨12, 20⟩], List.Sublist.refl _, by decide⟩⟩

/-- C3 (amended): calling `resolver_backtracking` a second time on the same
problem struct returns the identical best cover and best size (the second
search can never improve on a minimum), and the greedy solver, which resets
all the state it reads, is a pure function of the instance; however the
`nos_visitados` of the two runs may differ, because `n_melhor_solucao`
persists in the struct between the calls and sharpens pruning in the second
run (see the counterexample). -/
theorem claim_C3 (pontos : List Ponto) (intervalos : List Intervalo) :
    (resolver_backtracking pontos intervalos
      (resolver_backtracking pontos intervalos
        inicializar_problema_backtracking).1).1.melhor_solucao =
      (resolver_backtracking pontos intervalos
        inicializar_problema_backtracking).1.melhor_solucao ∧
    (resolver_backtracking pontos intervalos
      (resolver_backtracking pontos intervalos
        inicializar_problema_backtracking).1).1.n_melhor_solucao =
      (resolver_backtracking pontos intervalos
        inicializar_problema_backtracking).1.n_melhor_solucao ∧
    (resolver_backtracking pontos intervalos
      (resolver_backtracking pontos intervalos
        inicializar_problema_backtracking).1).2.n_solucao =
      (resolver_backtracking pontos intervalos
        inicializar_problema_backtracking).2.n_solucao := by
  have hmain : (backtracking_recursivo pontos intervalos
      { backtracking_recursivo pontos intervalos inicializar_problema_backtracking with
        solucao_atual := [], nos_visitados := 0 }).melhor_solucao =
      (backtracking_recursivo pontos intervalos
        inicializar_problema_backtracking).melhor_solucao ∧
      (backtracking_recursivo pontos intervalos
        { backtracking_recursivo pontos intervalos
            inicializar_problema_backtracking with
          solucao_atual := [], nos_visitados := 0 }).n_melhor_solucao =
      (backtracking_recursivo pontos intervalos
        inicializar_problema_backtracking).n_melhor_solucao := by
    rcases btRec_sound pontos intervalos
      { backtracking_recursivo pontos intervalos inicializar_problema_backtracking with
        solucao_atual := [], nos_visitados := 0 } with
      ⟨hm, hn⟩ | ⟨m, hmne, hsub, hmel, hcov, hlen2, hlt⟩
    · exact ⟨hm, hn⟩
    · exfalso
      have hmel2 : (backtracking_recursivo pontos intervalos
          { backtracking_recursivo pontos intervalos
              inicializar_problema_backtracking with
            solucao_atual := [], nos_visitados := 0 }).melhor_solucao = m := by
        rw [hmel]
        show [] ++ m = m
        exact List.nil_append m
      rw [hmel2] at hcov hlen2
      have hc1 := btRec_complete pontos intervalos inicializar_problema_backtracking
        m hsub hmne (by simpa using hcov)
      have h0 : inicializar_problema_backtracking.solucao_atual.length = 0 := rfl
      have hlt2 : (backtracking_recursivo pontos intervalos
          { backtracking_recursivo pontos intervalos
              inicializar_problema_backtracking with
            solucao_atual := [], nos_visitados := 0 }).n_melhor_solucao <
          (backtracking_recursivo pontos intervalos
            inicializar_problema_backtracking).n_melhor_solucao := hlt
      omega
  exact ⟨hmain.1, hmain.2, hmain.2⟩

/-- Counterexample for C3 as stated: on the prepared instance with points at
0 and 10 and pool [0,0], [0,0], [10,10] (sorted descending by length, ties by
start), the second invocation on the same struct visits a different number of
nodes than the first (10 versus 12), because the retained best size prunes the
second search earlier. -/
theorem claim_C3_counterexample :
    ¬ ((resolver_backtracking [⟨1, 0⟩, ⟨2, 10⟩]
        [⟨0, 0⟩, ⟨0, 0⟩, ⟨10, 10⟩]
        (resolver_backtracking [⟨1, 0⟩, ⟨2, 10⟩] [⟨0, 0⟩, ⟨0, 0⟩, ⟨10, 10⟩]
          inicializar_problema_backtracking).1).2.nos_visitados =
      (resolver_backtracking [⟨1, 0⟩, ⟨2, 10⟩] [⟨0, 0⟩, ⟨0, 0⟩, ⟨10, 10⟩]
        inicializar_problema_backtracking).2.nos_visitados) := by decide

/-- C4: for a non-failure outcome of either solver (greedy with all points
covered; exact with the best size not at the sentinel), the returned cover
contains every point's position, and every member, at its position in the
cover, covers some point that the earlier members do not. -/
theorem claim_C4 (pontos : List Ponto) (intervalos : List Intervalo)
    (hne : pontos ≠ []) :
    (todos_pontos_cobertos pontos
        (resolver_guloso pontos intervalos).pontos_cobertos = true →
      cobre_todos (resolver_guloso pontos intervalos).solucao pontos = true ∧
      selecao_progressiva pontos (resolver_guloso pontos intervalos).solucao) ∧
    ((resolver_backtracking pontos intervalos
        inicializar_problema_backtracking).1.n_melhor_solucao ≠ INT_MAX →
      cobre_todos (resolver_backtracking pontos intervalos
        inicializar_problema_backtracking).1.melhor_solucao pontos = true ∧
      selecao_progressiva pontos (resolver_backtracking pontos intervalos
        inicializar_problema_backtracking).1.melhor_solucao) := by
  obtain ⟨hmask, hfresh, _, _, _⟩ := resolver_guloso_spec pontos intervalos
  constructor
  · intro ht
    refine ⟨?_, hfresh⟩
    rw [hmask] at ht
    exact (todos_mask_de_iff pontos (resolver_guloso pontos intervalos).solucao).mp ht
  · have heq : (resolver_backtracking pontos intervalos
        inicializar_problema_backtracking).1 =
        backtracking_recursivo pontos intervalos inicializar_problema_backtracking := rfl
    rw [heq]
    intro hfound
    exact backtracking_selecao pontos intervalos hne hfound

/-- Witness for C4 at a concrete instance. -/
theorem claim_C4_witness :
    (([⟨1, 5⟩, ⟨2, 15⟩] : List Ponto) ≠ []) ∧
    ((todos_pontos_cobertos [⟨1, 5⟩, ⟨2, 15⟩]
        (resolver_guloso [⟨1, 5⟩, ⟨2, 15⟩] [⟨0, 10⟩, ⟨12, 20⟩]).pontos_cobertos = true →
      cobre_todos (resolver_guloso [⟨1, 5⟩, ⟨2, 15⟩]
        [⟨0, 10⟩, ⟨12, 20⟩]).solucao [⟨1, 5⟩, ⟨2, 15⟩] = true ∧
      selecao_progressiva [⟨1, 5⟩, ⟨2, 15⟩]
        (resolver_guloso [⟨1, 5⟩, ⟨2, 15⟩] [⟨0, 10⟩, ⟨12, 20⟩]).solucao) ∧
    ((resolver_backtracking [⟨1, 5⟩, ⟨2, 15⟩] [⟨0, 10⟩, ⟨12, 20⟩]
        inicializar_problema_backtracking).1.n_melhor_solucao ≠ INT_MAX →
      cobre_todos (resolver_backtracking [⟨1, 5⟩, ⟨2, 15⟩] [⟨0, 10⟩, ⟨12, 20⟩]
        inicializar_problema_backtracking).1.melhor_solucao [⟨1, 5⟩, ⟨2, 15⟩] = true ∧
      selecao_progressiva [⟨1, 5⟩, ⟨2, 15⟩]
        (resolver_backtracking [⟨1, 5⟩, ⟨2, 15⟩] [⟨0, 10⟩, ⟨12, 20⟩]
          inicializar_problema_backtracking).1.melhor_solucao)) :=
  ⟨by decide, claim_C4 [⟨1, 5⟩, ⟨2, 15⟩] [⟨0, 10⟩, ⟨12, 20⟩] (by decide)⟩

/-- C5: at a greedy iteration with `idx` the first uncovered point (as
returned by `obter_proximo_ponto_nao_coberto`): the anchor's mask bit is 0,
all earlier bits are 1, and coverage is not yet complete; when
`encontrar_melhor_intervalo` returns an index it is an in-range index of an
interval containing the anchor that maximizes the newly-covered count, with
ties broken by smaller length and then by smaller index; when no interval
contains the anchor it returns none, and then the loop body leaves the state
unchanged (terminating with the remaining points uncovered). -/
theorem claim_C5 (pontos : List Ponto) (mask : List Bool)
    (intervalos : List Intervalo) (idx fuel : Nat) (sol : List Intervalo)
    (hlen : mask.length = pontos.length)
    (ho : obter_proximo_ponto_nao_coberto mask = some idx) :
    (mask.getD idx true = false ∧ (∀ t, t < idx → mask.getD t true = true) ∧
      todos_pontos_cobertos pontos mask = false) ∧
    (∀ k, encontrar_melhor_intervalo pontos mask intervalos idx = some k →
      k < intervalos.length ∧
      ponto_coberto_por_intervalo (pontos.getD idx ⟨0, 0⟩)
        (intervalos.getD k ⟨0, 0⟩) = true ∧
      ∀ j, j < intervalos.length →
        ponto_coberto_por_intervalo (pontos.getD idx ⟨0, 0⟩)
          (intervalos.getD j ⟨0, 0⟩) = true →
        pontos_cobertos_potencial pontos mask (intervalos.getD j ⟨0, 0⟩) ≤
          pontos_cobertos_potencial pontos mask (intervalos.getD k ⟨0, 0⟩) ∧
        (pontos_cobertos_potencial pontos mask (intervalos.getD j ⟨0, 0⟩) =
            pontos_cobertos_potencial pontos mask (intervalos.getD k ⟨0, 0⟩) →
          tamanho (intervalos.getD k ⟨0, 0⟩) ≤ tamanho (intervalos.getD j ⟨0, 0⟩) ∧
          (tamanho (intervalos.getD j ⟨0, 0⟩) = tamanho (intervalos.getD k ⟨0, 0⟩) →
            k ≤ j))) ∧
    ((∀ j, j < intervalos.length →
        ponto_coberto_por_intervalo (pontos.getD idx ⟨0, 0⟩)
          (intervalos.getD j ⟨0, 0⟩) = false) →
      encontrar_melhor_intervalo pontos mask intervalos idx = none) ∧
    (encontrar_melhor_intervalo pontos mask intervalos idx = none →
      resolver_guloso_loop pontos intervalos (fuel + 1) mask sol = (mask, sol)) := by
  obtain ⟨hidxm, hbit, hfirst⟩ := obter_some_spec mask idx ho
  have hidxp : idx < pontos.length := by rw [← hlen]; exact hidxm
  have hz : (pontos.getD idx ⟨0, 0⟩, false) ∈ List.zip pontos mask := by
    have := getD_zip_mem pontos mask idx ⟨0, 0⟩ true hidxp hidxm
    rw [hbit] at this
    exact this
  refine ⟨⟨hbit, hfirst, ?_⟩, ?_, ?_, ?_⟩
  · have hcnt := count_lt_of_false mask idx hidxm hbit
    rw [hlen] at hcnt
    unfold todos_pontos_cobertos n_pontos_cobertos
    cases hbeq : (mask.count true == pontos.length) with
    | false => rfl
    | true =>
      exfalso
      have := beq_iff_eq.mp hbeq
      omega
  · intro k hk
    obtain ⟨h1, h2, h3⟩ := encontrar_some_spec pontos mask intervalos idx k hz hk
    refine ⟨h1, h2, ?_⟩
    intro j hj hjc
    exact h3 j hj hjc
  · intro hnone2
    cases hk : encontrar_melhor_intervalo pontos mask intervalos idx with
    | none => rfl
    | some k =>
      obtain ⟨h1, h2, _⟩ := encontrar_some_spec pontos mask intervalos idx k hz hk
      rw [hnone2 k h1] at h2
      cases h2
  · intro he
    exact resolver_guloso_loop_fixpoint pontos intervalos mask sol
      (Or.inr ⟨idx, ho, he⟩) (fuel + 1)

/-- Witness for C5 at a concrete loop state. -/
theorem claim_C5_witness :
    ((([false, false] : List Bool).length = ([⟨1, 5⟩, ⟨2, 15⟩] : List Ponto).length ∧
      obter_proximo_ponto_nao_coberto [false, false] = some 0) ∧
    ((([false, false] : List Bool).getD 0 true = false ∧
      (∀ t, t < 0 → ([false, false] : List Bool).getD t true = true) ∧
      todos_pontos_cobertos [⟨1, 5⟩, ⟨2, 15⟩] [false, false] = false) ∧
    (∀ k, encontrar_melhor_intervalo [⟨1, 5⟩, ⟨2, 15⟩] [false, false]
        [⟨0, 10⟩] 0 = some k →
      k < ([⟨0, 10⟩] : List Intervalo).length ∧
      ponto_coberto_por_intervalo (([⟨1, 5⟩, ⟨2, 15⟩] : List Ponto).getD 0 ⟨0, 0⟩)
        (([⟨0, 10⟩] : List Intervalo).getD k ⟨0, 0⟩) = true ∧
      ∀ j, j < ([⟨0, 10⟩] : List Intervalo).length →
        ponto_coberto_por_intervalo (([⟨1, 5⟩, ⟨2, 15⟩] : List Ponto).getD 0 ⟨0, 0⟩)
          (([⟨0, 10⟩] : List Intervalo).getD j ⟨0, 0⟩) = true →
        pontos_cobertos_potencial [⟨1, 5⟩, ⟨2, 15⟩] [false, false]
            (([⟨0, 10⟩] : List Intervalo).getD j ⟨0, 0⟩) ≤
          pontos_cobertos_potencial [⟨1, 5⟩, ⟨2, 15⟩] [false, false]
            (([⟨0, 10⟩] : List Intervalo).getD k ⟨0, 0⟩) ∧
        (pontos_cobertos_potencial [⟨1, 5⟩, ⟨2, 15⟩] [false, false]
            (([⟨0, 10⟩] : List Intervalo).getD j ⟨0, 0⟩) =
            pontos_cobertos_potencial [⟨1, 5⟩, ⟨2, 15⟩] [false, false]
              (([⟨0, 10⟩] : List Intervalo).getD k ⟨0, 0⟩) →
          tamanho (([⟨0, 10⟩] : List Intervalo).getD k ⟨0, 0⟩) ≤
            tamanho (([⟨0, 10⟩] : List Intervalo).getD j ⟨0, 0⟩) ∧
          (tamanho (([⟨0, 10⟩] : List Intervalo).getD j ⟨0, 0⟩) =
              tamanho (([⟨0, 10⟩] : List Intervalo).getD k ⟨0, 0⟩) →
            k ≤ j))) ∧
    ((∀ j, j < ([⟨0, 10⟩] : List Intervalo).length →
        ponto_coberto_por_intervalo (([⟨1, 5⟩, ⟨2, 15⟩] : List Ponto).getD 0 ⟨0, 0⟩)
          (([⟨0, 10⟩] : List Intervalo).getD j ⟨0, 0⟩) = false) →
      encontrar_melhor_intervalo [⟨1, 5⟩, ⟨2, 15⟩] [false, false] [⟨0, 10⟩] 0 = none) ∧
    (encontrar_melhor_intervalo [⟨1, 5⟩, ⟨2, 15⟩] [false, false] [⟨0, 10⟩] 0 = none →
      resolver_guloso_loop [⟨1, 5⟩, ⟨2, 15⟩] [⟨0, 10⟩] (0 + 1) [false, false] [] =
        ([false, false], [])))) :=
  ⟨⟨by decide, by decide⟩,
   claim_C5 [⟨1, 5⟩, ⟨2, 15⟩] [false, false] [⟨0, 10⟩] 0 0 []
     (by decide) (by decide)⟩

/-- C6: when some point lies outside every interval of the pool, the exact
solver ends with the best size still at the INT_MAX sentinel (both in its
state and in its reported metrics), and the greedy solver ends with coverage
incomplete — neither solver reports a spurious complete cover, and both
return normally (they are total functions of the instance). -/
theorem claim_C6 (pontos : List Ponto) (intervalos : List Intervalo) (p : Ponto)
    (hp : p ∈ pontos)
    (hout : ∀ iv ∈ intervalos, ponto_coberto_por_intervalo p iv = false) :
    (resolver_backtracking pontos intervalos
      inicializar_problema_backtracking).1.n_melhor_solucao = INT_MAX ∧
    (resolver_backtracking pontos intervalos
      inicializar_problema_backtracking).2.n_solucao = INT_MAX ∧
    todos_pontos_cobertos pontos
      (resolver_guloso pontos intervalos).pontos_cobertos = false := by
  have hnocov : ¬ ∃ m, List.Sublist m intervalos ∧ cobre_todos m pontos = true := by
    rintro ⟨m, hsub, hcov⟩
    obtain ⟨iv, hivm, hivc⟩ := cobre_todos_mem m pontos p hcov hp
    rw [hout iv (hsub.subset hivm)] at hivc
    cases hivc
  obtain ⟨_, hinfeas⟩ := backtracking_otimo pontos intervalos
  obtain ⟨hn, _⟩ := hinfeas hnocov
  have heq : (resolver_backtracking pontos intervalos
      inicializar_problema_backtracking).1 =
      backtracking_recursivo pontos intervalos inicializar_problema_backtracking := rfl
  refine ⟨by rw [heq]; exact hn, ?_, ?_⟩
  · show (resolver_backtracking pontos intervalos
      inicializar_problema_backtracking).1.n_melhor_solucao = INT_MAX
    rw [heq]
    exact hn
  · obtain ⟨hmask, _, ⟨idxs, hnd, hbound, hmapeq⟩, _, _⟩ :=
      resolver_guloso_spec pontos intervalos
    by_cases ht : todos_pontos_cobertos pontos
        (resolver_guloso pontos intervalos).pontos_cobertos = true
    · exfalso
      rw [hmask] at ht
      have hcov := (todos_mask_de_iff pontos
        (resolver_guloso pontos intervalos).solucao).mp ht
      obtain ⟨iv, hivm, hivc⟩ := cobre_todos_mem _ pontos p hcov hp
      rw [hmapeq] at hivm
      obtain ⟨i, hi, rfl⟩ := List.mem_map.mp hivm
      rw [hout _ (getD_mem intervalos i ⟨0, 0⟩ (hbound i hi))] at hivc
      cases hivc
    · rw [Bool.not_eq_true] at ht
      exact ht

/-- Witness for C6 at a concrete infeasible instance. -/
theorem claim_C6_witness :
    ((⟨2, 50⟩ : Ponto) ∈ ([⟨1, 5⟩, ⟨2, 50⟩] : List Ponto) ∧
      (∀ iv ∈ ([⟨0, 10⟩] : List Intervalo),
        ponto_coberto_por_intervalo ⟨2, 50⟩ iv = false)) ∧
    ((resolver_backtracking [⟨1, 5⟩, ⟨2, 50⟩] [⟨0, 10⟩]
      inicializar_problema_backtracking).1.n_melhor_solucao = INT_MAX ∧
    (resolver_backtracking [⟨1, 5⟩, ⟨2, 50⟩] [⟨0, 10⟩]
      inicializar_problema_backtracking).2.n_solucao = INT_MAX ∧
    todos_pontos_cobertos [⟨1, 5⟩, ⟨2, 50⟩]
      (resolver_guloso [⟨1, 5⟩, ⟨2, 50⟩] [⟨0, 10⟩]).pontos_cobertos = false) :=
  ⟨⟨by decide, by decide⟩,
   claim_C6 [⟨1, 5⟩, ⟨2, 50⟩] [⟨0, 10⟩] ⟨2, 50⟩ (by decide) (by decide)⟩
